import Mathlib

/-!
Verification development for the API_CALL_GUI form-interview system.

The Python source (src/API_Call1.py, src/API_Call2.py) is shallowly embedded
below.  Modelling conventions:

* Python strings are Lean `String`s (ASCII-level semantics: `str.strip`
  strips the ASCII whitespace characters, `str.lower` is `Char.toLower`).
* Python `float(...)` parsing is modelled exactly over unbounded decimals:
  a parsed value is a canonical pair `m * 10^e` (sign-magnitude, with all
  factors of ten moved into the exponent), or `inf`/`-inf`/`nan`.  This is
  value-exact for every decimal literal; it abstracts from IEEE-754 binary
  rounding, from overflow of huge finite literals to `inf`, and from the
  scientific-notation switch of `repr(float)` for very large/small values,
  none of which the claims under study depend on.
* Fallible Python code is `Except PyExc`; `requests.post` and the JSON
  payload are an oracle stream `List NetResult` consumed one entry per
  outbound call (`.ok (some txt)` = well-formed payload whose
  `parse_response` text is `txt`, `.ok none` = payload missing the expected
  shape, `.error e` = the call itself raised).
* `dateutil.parser.parse` is an external library, not repository code; it
  is abstracted as a predicate `pd : String → Bool` (`true` = parses).
-/

/-! ## Character and string primitives (Python `str` operations) -/

def charDigit (c : Char) : Bool := 48 ≤ c.toNat && c.toNat ≤ 57

def pyIsSpace (c : Char) : Bool :=
  c = ' ' || c = '\t' || c = '\n' || c = '\r' || c = '\x0b' || c = '\x0c'

/-- Model of Python `str.strip()` on a character list. -/
def stripL (l : List Char) : List Char :=
  ((l.dropWhile pyIsSpace).reverse.dropWhile pyIsSpace).reverse

def pyStrip (s : String) : String := String.mk (stripL s.data)

/-- Model of Python `str.lower()` (ASCII). -/
def pyLower (s : String) : String := String.mk (s.data.map Char.toLower)

/-- Model of Python `sub in s` substring containment. -/
def isSubstr (pat l : List Char) : Bool :=
  l.tails.any fun t => pat.isPrefixOf t

/-- `any(p in s for p in pats)`. -/
def containsAny (s : String) (pats : List String) : Bool :=
  pats.any fun p => isSubstr p.data s.data

/-- Python `s.split("\n")[0]`: the prefix before the first newline. -/
def firstSplit (s : String) : String :=
  String.mk (s.data.takeWhile fun c => c ≠ '\n')

/-! ## Decimal digit machinery -/

def digitChar : ℕ → Char
  | 0 => '0' | 1 => '1' | 2 => '2' | 3 => '3' | 4 => '4'
  | 5 => '5' | 6 => '6' | 7 => '7' | 8 => '8' | _ => '9'

/-- Little-endian decimal digits of `n`, with explicit fuel (structural, so
the kernel can evaluate it; fuel `n` always suffices). -/
def digitsLE : ℕ → ℕ → List ℕ
  | 0, _ => []
  | f + 1, n => if n = 0 then [] else n % 10 :: digitsLE f (n / 10)

/-- Big-endian decimal digit characters of `n`, as produced by Python
`str` on a nonnegative integer. -/
def natDigitsStr (n : ℕ) : List Char :=
  if n = 0 then ['0'] else ((digitsLE n n).reverse).map digitChar

/-- Numeric value of a big-endian digit-character list. -/
def natFromDigits (l : List Char) : ℕ :=
  l.foldl (fun a c => 10 * a + (c.toNat - 48)) 0

/-- Python `str(n)` for `n : ℤ`. -/
def intRender (n : ℤ) : List Char :=
  if n < 0 then '-' :: natDigitsStr n.natAbs else natDigitsStr n.natAbs

/-! ### Digit lemmas -/

theorem digitsLE_fuel (f g n : ℕ) (hf : n ≤ f) (hg : n ≤ g) :
    digitsLE f n = digitsLE g n := by
  induction f generalizing g n with
  | zero =>
    interval_cases n
    cases g <;> simp [digitsLE]
  | succ f ih =>
    cases g with
    | zero =>
      interval_cases n
      simp [digitsLE]
    | succ g =>
      by_cases h0 : n = 0
      · simp [digitsLE, h0]
      · have hd : n / 10 < n := Nat.div_lt_self (Nat.pos_of_ne_zero h0) (by norm_num)
        simp only [digitsLE, h0, if_false]
        rw [ih g (n / 10) (by omega) (by omega)]

theorem digitsLE_sound (f n : ℕ) (hf : n ≤ f) :
    Nat.ofDigits 10 (digitsLE f n) = n := by
  induction f generalizing n with
  | zero => interval_cases n; simp [digitsLE]
  | succ f ih =>
    by_cases h0 : n = 0
    · simp [digitsLE, h0]
    · have hd : n / 10 < n := Nat.div_lt_self (Nat.pos_of_ne_zero h0) (by norm_num)
      simp only [digitsLE, h0, if_false, Nat.ofDigits_cons]
      rw [ih (n / 10) (by omega)]
      omega

theorem digitsLE_lt (f n : ℕ) : ∀ d ∈ digitsLE f n, d < 10 := by
  induction f generalizing n with
  | zero => simp [digitsLE]
  | succ f ih =>
    by_cases h0 : n = 0
    · simp [digitsLE, h0]
    · simp only [digitsLE, h0, if_false, List.mem_cons]
      rintro d (rfl | hd)
      · exact Nat.mod_lt _ (by norm_num)
      · exact ih _ _ hd

theorem charVal_digitChar (d : ℕ) (hd : d < 10) : (digitChar d).toNat - 48 = d := by
  interval_cases d <;> rfl

theorem charDigit_digitChar (d : ℕ) (hd : d < 10) : charDigit (digitChar d) = true := by
  interval_cases d <;> rfl

theorem natFromDigits_aux (l : List Char) (a : ℕ) :
    l.foldl (fun a c => 10 * a + (c.toNat - 48)) a =
      a * 10 ^ l.length + natFromDigits l := by
  induction l generalizing a with
  | nil => simp [natFromDigits]
  | cons c t ih =>
    simp only [List.foldl_cons, natFromDigits, List.length_cons]
    rw [ih (10 * a + (c.toNat - 48)), ih (10 * 0 + (c.toNat - 48))]
    ring

theorem natFromDigits_append (l1 l2 : List Char) :
    natFromDigits (l1 ++ l2) = natFromDigits l1 * 10 ^ l2.length + natFromDigits l2 := by
  simp only [natFromDigits, List.foldl_append]
  rw [natFromDigits_aux]
  rfl

theorem natFromDigits_cons (c : Char) (l : List Char) :
    natFromDigits (c :: l) = (c.toNat - 48) * 10 ^ l.length + natFromDigits l := by
  have := natFromDigits_append [c] l
  simpa [natFromDigits] using this

theorem natFromDigits_replicate_zero (k : ℕ) :
    natFromDigits (List.replicate k '0') = 0 := by
  induction k with
  | zero => rfl
  | succ k ih =>
    rw [List.replicate_succ, natFromDigits_cons, ih]
    simp

theorem natFromDigits_map_digitChar (L : List ℕ) (h : ∀ d ∈ L, d < 10) :
    natFromDigits (L.map digitChar) = L.foldl (fun a d => 10 * a + d) 0 := by
  have aux : ∀ (M : List ℕ) (a : ℕ), (∀ d ∈ M, d < 10) →
      (M.map digitChar).foldl (fun a c => 10 * a + (c.toNat - 48)) a =
        M.foldl (fun a d => 10 * a + d) a := by
    intro M
    induction M with
    | nil => intro a _; rfl
    | cons d t ih =>
      intro a hM
      simp only [List.map_cons, List.foldl_cons]
      rw [charVal_digitChar d (hM d (by simp))]
      exact ih _ (fun x hx => hM x (by simp [hx]))
  exact aux L 0 h

theorem foldl_reverse_ofDigits (L : List ℕ) :
    L.reverse.foldl (fun a d => 10 * a + d) 0 = Nat.ofDigits 10 L := by
  induction L with
  | nil => rfl
  | cons d t ih =>
    have step : ∀ (M : List ℕ) (a b : ℕ),
        (M ++ [b]).foldl (fun a d => 10 * a + d) a =
          10 * M.foldl (fun a d => 10 * a + d) a + b := by
      intro M
      induction M with
      | nil => intro a b; rfl
      | cons x t ihM => intro a b; simp only [List.cons_append, List.foldl_cons]; exact ihM _ _
    simp only [List.reverse_cons, Nat.ofDigits_cons]
    rw [step, ih]
    ring

theorem natFromDigits_natDigitsStr (n : ℕ) : natFromDigits (natDigitsStr n) = n := by
  by_cases h0 : n = 0
  · subst h0; rfl
  · simp only [natDigitsStr, h0, if_false]
    rw [natFromDigits_map_digitChar _ (fun d hd => digitsLE_lt n n d (by simpa using hd))]
    rw [foldl_reverse_ofDigits]
    exact digitsLE_sound n n le_rfl

theorem natDigitsStr_all_digit (n : ℕ) : ∀ c ∈ natDigitsStr n, charDigit c = true := by
  by_cases h0 : n = 0
  · subst h0; intro c hc; simp [natDigitsStr] at hc; subst hc; rfl
  · simp only [natDigitsStr, h0, if_false]
    intro c hc
    rcases List.mem_map.mp hc with ⟨d, hd, rfl⟩
    exact charDigit_digitChar d (digitsLE_lt n n d (by simpa using hd))

theorem natDigitsStr_ne_nil (n : ℕ) : natDigitsStr n ≠ [] := by
  by_cases h0 : n = 0
  · subst h0; simp [natDigitsStr]
  · simp only [natDigitsStr, h0, if_false]
    intro h
    rcases List.map_eq_nil_iff.mp h with h'
    have := digitsLE_sound n n le_rfl
    rw [show digitsLE n n = [] from by simpa using congrArg List.reverse h'] at this
    simp [Nat.ofDigits] at this
    omega

/-! ### Strip / takeWhile utilities -/

theorem length_dropWhile_le (p : α → Bool) (l : List α) :
    (l.dropWhile p).length ≤ l.length := by
  induction l with
  | nil => simp
  | cons a t ih =>
    by_cases h : p a
    · rw [List.dropWhile_cons_of_pos h]; exact ih.trans (by simp)
    · rw [List.dropWhile_cons_of_neg h]

theorem dropWhile_idem (p : α → Bool) (l : List α) :
    (l.dropWhile p).dropWhile p = l.dropWhile p := by
  induction l with
  | nil => rfl
  | cons a t ih =>
    by_cases h : p a
    · rw [List.dropWhile_cons_of_pos h]; exact ih
    · rw [List.dropWhile_cons_of_neg h, List.dropWhile_cons_of_neg h]

theorem dropWhile_exists_prefix (p : α → Bool) (l : List α) :
    ∃ pre, l = pre ++ l.dropWhile p := by
  induction l with
  | nil => exact ⟨[], rfl⟩
  | cons a t ih =>
    by_cases h : p a
    · rcases ih with ⟨pre, hpre⟩
      exact ⟨a :: pre, by rw [List.dropWhile_cons_of_pos h]; simpa using hpre⟩
    · exact ⟨[], by rw [List.dropWhile_cons_of_neg h]; rfl⟩

theorem dropWhile_all_not (p : α → Bool) (l : List α) (h : ∀ a ∈ l, p a = false) :
    l.dropWhile p = l := by
  induction l with
  | nil => rfl
  | cons a t ih =>
    rw [List.dropWhile_cons_of_neg (by simp [h a (by simp)])]

theorem takeWhile_all (p : α → Bool) (l : List α) (h : ∀ a ∈ l, p a = true) :
    l.takeWhile p = l := by
  induction l with
  | nil => rfl
  | cons a t ih =>
    rw [List.takeWhile_cons_of_pos (h a (by simp))]
    rw [ih (fun x hx => h x (by simp [hx]))]

theorem drop_rev_drop (p : α → Bool) (m : List α) (hm : m.dropWhile p = m) :
    ((m.reverse.dropWhile p).reverse).dropWhile p = (m.reverse.dropWhile p).reverse := by
  rcases hP : (m.reverse.dropWhile p).reverse with _ | ⟨x, xs⟩
  · rfl
  · -- `(m.reverse.dropWhile p).reverse` is a prefix of `m`, so `x` heads `m`
    rcases dropWhile_exists_prefix p m.reverse with ⟨pre, hpre⟩
    have hm2 : m = (m.reverse.dropWhile p).reverse ++ pre.reverse := by
      have := congrArg List.reverse hpre
      simpa using this
    rw [hP] at hm2
    have hx : p x = false := by
      by_contra hpx
      have hpx' : p x = true := by
        cases hpx0 : p x
        · exact absurd hpx0 hpx
        · rfl
      have : m.dropWhile p = (xs ++ pre.reverse).dropWhile p := by
        rw [hm2]
        simp [List.dropWhile_cons_of_pos hpx']
      rw [hm] at this
      have hlen := congrArg List.length this
      have hle := length_dropWhile_le p (xs ++ pre.reverse)
      have hmlen := congrArg List.length hm2
      simp [List.length_append] at hlen hle hmlen
      omega
    rw [List.dropWhile_cons_of_neg (by simp [hx])]

theorem stripL_idem (l : List Char) : stripL (stripL l) = stripL l := by
  unfold stripL
  have h1 : (((l.dropWhile pyIsSpace).reverse.dropWhile pyIsSpace).reverse).dropWhile
      pyIsSpace = ((l.dropWhile pyIsSpace).reverse.dropWhile pyIsSpace).reverse :=
    drop_rev_drop pyIsSpace (l.dropWhile pyIsSpace) (dropWhile_idem pyIsSpace l)
  rw [h1, List.reverse_reverse, dropWhile_idem]

theorem stripL_no_space (l : List Char) (h : ∀ c ∈ l, pyIsSpace c = false) :
    stripL l = l := by
  unfold stripL
  rw [dropWhile_all_not _ _ h, dropWhile_all_not, List.reverse_reverse]
  intro c hc
  exact h c (by simpa using hc)

theorem pyStrip_mk (l : List Char) : pyStrip (String.mk l) = String.mk (stripL l) := rfl

theorem pyStrip_idem (s : String) : pyStrip (pyStrip s) = pyStrip s := by
  cases s with
  | mk l => simp [pyStrip, stripL_idem]

/-! ## Model of Python `float(...)` values and parsing

A parsed value is sign-magnitude-exponent in canonical decimal form
(`finite m e` denotes `m * 10^e` with all factors of ten stripped from `m`),
or one of the special values.  See the header for the modelling conventions.
-/

inductive PyFloat where
  | finite (m : ℤ) (e : ℤ)
  | inf
  | ninf
  | nan
deriving DecidableEq, Repr

/-- Strip factors of ten: `strip10F fuel m = (a, k)` with `m = a * 10^k` and
`10 ∤ a` whenever `m ≠ 0` and `fuel ≥ m` (fuel keeps it structural). -/
def strip10F : ℕ → ℕ → ℕ × ℕ
  | 0, m => (m, 0)
  | f + 1, m =>
    if m ≠ 0 ∧ m % 10 = 0 then
      let r := strip10F f (m / 10)
      (r.1, r.2 + 1)
    else (m, 0)

def strip10 (m : ℕ) : ℕ × ℕ := strip10F m m

/-- Canonicalize a signed decimal `M * 10^E`. -/
def normDec (M E : ℤ) : ℤ × ℤ :=
  if M = 0 then (0, 0)
  else
    let r := strip10 M.natAbs
    (if M < 0 then -(r.1 : ℤ) else (r.1 : ℤ), E + (r.2 : ℤ))

def mkFinite (M E : ℤ) : PyFloat :=
  PyFloat.finite (normDec M E).1 (normDec M E).2

/-- Underscore placement check of CPython numeric literals: every `_` must sit
between two digits. -/
def uOk : Option Char → List Char → Bool
  | _, [] => true
  | prev, c :: rest =>
    if c = '_' then
      (match prev, rest with
       | some p, r :: _ => charDigit p && charDigit r
       | _, _ => false) && uOk (some c) rest
    else uOk (some c) rest

/-- Optional leading sign; returns (isNegative, rest). -/
def splitSign : List Char → Bool × List Char
  | [] => (false, [])
  | c :: r => if c = '-' then (true, r) else if c = '+' then (false, r) else (false, c :: r)

/-- Exponent part after `e`: optional sign then nonempty digits. -/
def parseExp (l : List Char) : Option ℤ :=
  let s := splitSign l
  if s.2 ≠ [] ∧ s.2.all charDigit then
    some (if s.1 then -(natFromDigits s.2 : ℤ) else (natFromDigits s.2 : ℤ))
  else none

/-- Unsigned numeric body `digits [. digits] [e [sign] digits]`; returns the
mantissa value and the decimal exponent. -/
def parseUnsignedNum (l : List Char) : Option (ℕ × ℤ) :=
  let mant := l.takeWhile fun c => c ≠ 'e'
  let rest := l.dropWhile fun c => c ≠ 'e'
  let d1 := mant.takeWhile fun c => c ≠ '.'
  let r2 := mant.dropWhile fun c => c ≠ '.'
  let d2 := match r2 with | [] => ([] : List Char) | _ :: t => t
  if d1.all charDigit ∧ d2.all charDigit ∧ ¬(d1.isEmpty ∧ d2.isEmpty) then
    match rest with
    | [] => some (natFromDigits (d1 ++ d2), -(d2.length : ℤ))
    | _ :: expPart =>
      match parseExp expPart with
      | some ex => some (natFromDigits (d1 ++ d2), ex - (d2.length : ℤ))
      | none => none
  else none

/-- Model of CPython `float(str)`: strip, case-fold, underscore check, sign,
`inf`/`infinity`/`nan`, or decimal with optional point and exponent. -/
def parseFloatList (l0 : List Char) : Option PyFloat :=
  let l1 := (stripL l0).map Char.toLower
  if uOk none l1 then
    let l := l1.filter fun c => c ≠ '_'
    let s := splitSign l
    let body := s.2
    if body = ['i', 'n', 'f'] ∨ body = ['i', 'n', 'f', 'i', 'n', 'i', 't', 'y'] then
      some (if s.1 then PyFloat.ninf else PyFloat.inf)
    else if body = ['n', 'a', 'n'] then some PyFloat.nan
    else
      match parseUnsignedNum body with
      | some (n, sc) => some (mkFinite (if s.1 then -(n : ℤ) else (n : ℤ)) sc)
      | none => none
  else none

/-- Truncation toward zero of `m * 10^e` (Python `int(float)`). -/
def truncVal (m e : ℤ) : ℤ :=
  if 0 ≤ e then m * 10 ^ e.toNat
  else
    if m < 0 then -((m.natAbs / 10 ^ (-e).toNat : ℕ) : ℤ)
    else ((m.natAbs / 10 ^ (-e).toNat : ℕ) : ℤ)

/-- Fixed-notation decimal rendering of a finite value, the model of
Python `str(float)` (see header: the scientific-notation switch for very
large/small magnitudes is not modelled). -/
def renderFinite (m e : ℤ) : List Char :=
  let sgn : List Char := if m < 0 then ['-'] else []
  let D := natDigitsStr m.natAbs
  if 0 ≤ e then sgn ++ D ++ List.replicate e.toNat '0' ++ ['.', '0']
  else
    let k := (-e).toNat
    if k < D.length then sgn ++ D.take (D.length - k) ++ ['.'] ++ D.drop (D.length - k)
    else sgn ++ ['0', '.'] ++ List.replicate (k - D.length) '0' ++ D

def renderPyFloat : PyFloat → String
  | .finite m e => String.mk (renderFinite m e)
  | .inf => "inf"
  | .ninf => "-inf"
  | .nan => "nan"

/-! ### Character class lemmas -/

theorem charDigit_bounds (c : Char) (h : charDigit c = true) :
    48 ≤ c.toNat ∧ c.toNat ≤ 57 := by
  simpa [charDigit, Bool.and_eq_true, decide_eq_true_eq] using h

theorem charDigit_ne (c : Char) (h : charDigit c = true) (d : Char)
    (hd : charDigit d = false) : c ≠ d := by
  intro e
  subst e
  rw [h] at hd
  cases hd

theorem charDigit_not_space (c : Char) (h : charDigit c = true) :
    pyIsSpace c = false := by
  cases hs : pyIsSpace c
  · rfl
  · exfalso
    simp only [pyIsSpace, Bool.or_eq_true, decide_eq_true_eq] at hs
    rcases hs with ((((h1 | h1) | h1) | h1) | h1) | h1 <;>
      (subst h1; exact absurd h (by decide))

theorem toLower_eq_self_of_lt (c : Char) (h : c.toNat < 65) :
    Char.toLower c = c := by
  unfold Char.toLower
  rw [if_neg]
  omega

theorem charDigit_toLower (c : Char) (h : charDigit c = true) :
    Char.toLower c = c :=
  toLower_eq_self_of_lt c (by have := charDigit_bounds c h; omega)

/-! ### `strip10` and `normDec` lemmas -/

theorem strip10F_succ (f m : ℕ) :
    strip10F (f + 1) m = if m ≠ 0 ∧ m % 10 = 0 then
      ((strip10F f (m / 10)).1, (strip10F f (m / 10)).2 + 1) else (m, 0) := rfl

theorem strip10F_spec (f : ℕ) : ∀ m : ℕ, m ≠ 0 → m ≤ f →
    (strip10F f m).1 * 10 ^ (strip10F f m).2 = m ∧ ¬ 10 ∣ (strip10F f m).1 := by
  induction f with
  | zero => intro m hm hf; omega
  | succ f ih =>
    intro m hm hf
    by_cases hc : m ≠ 0 ∧ m % 10 = 0
    · have hdvd : 10 ∣ m := Nat.dvd_of_mod_eq_zero hc.2
      have h10 : m / 10 ≠ 0 := by
        rcases hdvd with ⟨q, rfl⟩
        have : q ≠ 0 := by rintro rfl; simp at hm
        omega
      have hlt : m / 10 < m := Nat.div_lt_self (Nat.pos_of_ne_zero hm) (by norm_num)
      have hr := ih (m / 10) h10 (by omega)
      rw [strip10F_succ, if_pos hc]
      constructor
      · have heq : (strip10F f (m / 10)).1 * 10 ^ ((strip10F f (m / 10)).2 + 1) =
            ((strip10F f (m / 10)).1 * 10 ^ (strip10F f (m / 10)).2) * 10 := by ring
        rw [heq, hr.1]
        exact Nat.div_mul_cancel hdvd
      · exact hr.2
    · rw [strip10F_succ, if_neg hc]
      exact ⟨by simp, fun hdvd => hc ⟨hm, by omega⟩⟩

theorem strip10_spec (m : ℕ) (hm : m ≠ 0) :
    (strip10 m).1 * 10 ^ (strip10 m).2 = m ∧ ¬ 10 ∣ (strip10 m).1 :=
  strip10F_spec m m hm le_rfl

theorem strip10F_mul (j : ℕ) : ∀ f m : ℕ, ¬ 10 ∣ m → m ≠ 0 → j ≤ f →
    strip10F f (m * 10 ^ j) = (m, j) := by
  induction j with
  | zero =>
    intro f m hd h0 _
    simp only [pow_zero, mul_one]
    cases f with
    | zero => simp [strip10F]
    | succ f =>
      have hmod : ¬ (m ≠ 0 ∧ m % 10 = 0) := by
        intro ⟨_, hmm⟩
        exact hd (Nat.dvd_of_mod_eq_zero hmm)
      rw [strip10F_succ, if_neg hmod]
  | succ j ih =>
    intro f m hd h0 hf
    cases f with
    | zero => omega
    | succ f =>
      have hne : m * 10 ^ (j + 1) ≠ 0 := by positivity
      have hmod : m * 10 ^ (j + 1) % 10 = 0 := by
        have hdd : (10 : ℕ) ∣ m * 10 ^ (j + 1) := ⟨m * 10 ^ j, by ring⟩
        omega
      have hdiv : m * 10 ^ (j + 1) / 10 = m * 10 ^ j := by
        have heq : m * 10 ^ (j + 1) = (m * 10 ^ j) * 10 := by ring
        rw [heq]
        exact Nat.mul_div_cancel _ (by norm_num)
      rw [strip10F_succ, if_pos ⟨hne, hmod⟩, hdiv, ih f m hd h0 (by omega)]

theorem strip10_mul (j m : ℕ) (hd : ¬ 10 ∣ m) (h0 : m ≠ 0) :
    strip10 (m * 10 ^ j) = (m, j) := by
  have hj : j ≤ m * 10 ^ j := by
    have h1 : j < 10 ^ j := Nat.lt_pow_self (by norm_num) j
    have h2 : 10 ^ j ≤ m * 10 ^ j := Nat.le_mul_of_pos_left _ (Nat.pos_of_ne_zero h0)
    omega
  exact strip10F_mul j (m * 10 ^ j) m hd h0 hj

/-- Canonical form: zero is `(0, 0)`, otherwise ten does not divide the
mantissa. -/
def isCanon (m e : ℤ) : Prop := (m = 0 ∧ e = 0) ∨ (m ≠ 0 ∧ ¬ (10 : ℤ) ∣ m)

theorem normDec_canon (M E : ℤ) : isCanon (normDec M E).1 (normDec M E).2 := by
  by_cases hM : M = 0
  · left; simp [normDec, hM]
  · right
    have hna : M.natAbs ≠ 0 := by omega
    have hs := strip10_spec M.natAbs hna
    have h1 : (strip10 M.natAbs).1 ≠ 0 := by
      intro h
      rw [h] at hs
      simp at hs
    constructor
    · simp only [normDec, hM, if_false]
      split <;> simpa using h1
    · simp only [normDec, hM, if_false]
      intro hdvd
      apply hs.2
      have h2 : (10 : ℤ) ∣ ((strip10 M.natAbs).1 : ℤ) := by
        by_cases hMn : M < 0
        · rw [if_pos hMn] at hdvd
          exact (dvd_neg).mp hdvd
        · rwa [if_neg hMn] at hdvd
      exact_mod_cast h2

theorem normDec_of_canon (m e : ℤ) (h : isCanon m e) : normDec m e = (m, e) := by
  rcases h with ⟨hm, he⟩ | ⟨hm, hd⟩
  · subst hm; subst he; rfl
  · have hna : m.natAbs ≠ 0 := by omega
    have hdN : ¬ 10 ∣ m.natAbs := by
      intro hdn
      apply hd
      have : ((10 : ℕ) : ℤ) ∣ (m.natAbs : ℤ) := Int.natCast_dvd_natCast.mpr hdn
      rcases Int.natAbs_eq m with hcase | hcase
      · rw [hcase]; exact_mod_cast this
      · rw [hcase]; exact dvd_neg.mpr (by exact_mod_cast this)
    have hstrip : strip10 m.natAbs = (m.natAbs, 0) := by
      have := strip10_mul 0 m.natAbs hdN hna
      simpa using this
    simp only [normDec, hm, if_false, hstrip]
    by_cases hneg : m < 0
    · rw [if_pos hneg]
      have : (m.natAbs : ℤ) = -m := by omega
      rw [this]
      simp
    · rw [if_neg hneg]
      have : (m.natAbs : ℤ) = m := by omega
      rw [this]
      simp

/-! ### Parser execution lemmas -/

theorem uOk_no_underscore (l : List Char) (h : '_' ∉ l) :
    ∀ prev, uOk prev l = true := by
  induction l with
  | nil => intro prev; rfl
  | cons c rest ih =>
    intro prev
    have hc : c ≠ '_' := fun e => h (by simp [e])
    simp only [uOk, if_neg hc]
    exact ih (fun hm => h (by simp [hm])) (some c)

theorem splitSign_digit (c : Char) (r : List Char) (h : charDigit c = true) :
    splitSign (c :: r) = (false, c :: r) := by
  simp only [splitSign]
  rw [if_neg (charDigit_ne c h '-' (by decide)), if_neg (charDigit_ne c h '+' (by decide))]

theorem dropWhile_all_nil (p : α → Bool) (l : List α) (h : ∀ a ∈ l, p a = true) :
    l.dropWhile p = [] := by
  induction l with
  | nil => rfl
  | cons a t ih =>
    rw [List.dropWhile_cons_of_pos (h a (by simp))]
    exact ih fun x hx => h x (by simp [hx])

theorem parseUnsignedNum_shape (A B : List Char)
    (hA : ∀ c ∈ A, charDigit c = true) (hB : ∀ c ∈ B, charDigit c = true)
    (hne : A ≠ [] ∨ B ≠ []) :
    parseUnsignedNum (A ++ '.' :: B) =
      some (natFromDigits (A ++ B), -(B.length : ℤ)) := by
  have hall : ∀ c ∈ A ++ '.' :: B, (fun c => decide (c ≠ 'e')) c = true := by
    intro c hc
    rcases List.mem_append.mp hc with hc' | hc'
    · simpa using charDigit_ne c (hA c hc') 'e' (by decide)
    · rcases List.mem_cons.mp hc' with rfl | hc''
      · simp
      · simpa using charDigit_ne c (hB c hc'') 'e' (by decide)
  have hAp : ∀ c ∈ A, (fun c => decide (c ≠ '.')) c = true := by
    intro c hc
    simpa using charDigit_ne c (hA c hc) '.' (by decide)
  have hmant : (A ++ '.' :: B).takeWhile (fun c => decide (c ≠ 'e')) = A ++ '.' :: B :=
    takeWhile_all _ _ hall
  have hrest : (A ++ '.' :: B).dropWhile (fun c => decide (c ≠ 'e')) = [] :=
    dropWhile_all_nil _ _ hall
  have hd1 : (A ++ '.' :: B).takeWhile (fun c => decide (c ≠ '.')) = A := by
    rw [List.takeWhile_append_of_pos hAp, List.takeWhile_cons_of_neg (by simp)]
    simp
  have hr2 : (A ++ '.' :: B).dropWhile (fun c => decide (c ≠ '.')) = '.' :: B := by
    rw [List.dropWhile_append_of_pos hAp, List.dropWhile_cons_of_neg (by simp)]
  simp only [parseUnsignedNum, hmant, hrest, hd1, hr2]
  rw [if_pos]
  constructor
  · exact List.all_eq_true.mpr hA
  constructor
  · exact List.all_eq_true.mpr hB
  · rcases hne with h | h <;> simp [List.isEmpty_iff] <;> intro h' <;>
      first
      | exact absurd h' h
      | (intro h''; exact absurd h'' h)

theorem parseUnsignedNum_digits (A : List Char)
    (hA : ∀ c ∈ A, charDigit c = true) (hne : A ≠ []) :
    parseUnsignedNum A = some (natFromDigits A, 0) := by
  have hallE : ∀ c ∈ A, (fun c => decide (c ≠ 'e')) c = true := by
    intro c hc
    simpa using charDigit_ne c (hA c hc) 'e' (by decide)
  have hallP : ∀ c ∈ A, (fun c => decide (c ≠ '.')) c = true := by
    intro c hc
    simpa using charDigit_ne c (hA c hc) '.' (by decide)
  have hmant : A.takeWhile (fun c => decide (c ≠ 'e')) = A := takeWhile_all _ _ hallE
  have hrest : A.dropWhile (fun c => decide (c ≠ 'e')) = [] := dropWhile_all_nil _ _ hallE
  have hd1 : A.takeWhile (fun c => decide (c ≠ '.')) = A := takeWhile_all _ _ hallP
  have hr2 : A.dropWhile (fun c => decide (c ≠ '.')) = [] := dropWhile_all_nil _ _ hallP
  simp only [parseUnsignedNum, hmant, hrest, hd1, hr2]
  rw [if_pos]
  · simp
  refine ⟨List.all_eq_true.mpr hA, by simp, ?_⟩
  simp [List.isEmpty_iff, hne]


theorem map_id_of (f : α → α) (l : List α) (h : ∀ a ∈ l, f a = a) : l.map f = l := by
  induction l with
  | nil => rfl
  | cons a t ih =>
    simp only [List.map_cons, h a (by simp)]
    rw [ih fun x hx => h x (by simp [hx])]

theorem filter_self_of (p : α → Bool) (l : List α) (h : ∀ a ∈ l, p a = true) :
    l.filter p = l := by
  induction l with
  | nil => rfl
  | cons a t ih =>
    rw [List.filter_cons_of_pos (h a (by simp))]
    rw [ih fun x hx => h x (by simp [hx])]

theorem parseFloatList_signed (neg : Bool) (c : Char) (t : List Char)
    (hc : charDigit c = true)
    (hchars : ∀ x ∈ c :: t, charDigit x = true ∨ x = '.')
    (n : ℕ) (sc : ℤ) (hp : parseUnsignedNum (c :: t) = some (n, sc)) :
    parseFloatList ((if neg then ['-'] else []) ++ c :: t) =
      some (mkFinite (if neg then -(n : ℤ) else (n : ℤ)) sc) := by
  have hmemChar : ∀ x ∈ (if neg then ['-'] else []) ++ c :: t,
      charDigit x = true ∨ x = '.' ∨ x = '-' := by
    intro x hx
    rcases List.mem_append.mp hx with hx' | hx'
    · cases neg with
      | true => simp at hx'; subst hx'; right; right; rfl
      | false => simp at hx'
    · rcases hchars x hx' with h | h
      · left; exact h
      · right; left; exact h
  have hns : ∀ x ∈ (if neg then ['-'] else []) ++ c :: t, pyIsSpace x = false := by
    intro x hx
    rcases hmemChar x hx with h | h | h
    · exact charDigit_not_space x h
    · subst h; decide
    · subst h; decide
  have hstrip : stripL ((if neg then ['-'] else []) ++ c :: t) =
      (if neg then ['-'] else []) ++ c :: t := stripL_no_space _ hns
  have hmap : ((if neg then ['-'] else []) ++ c :: t).map Char.toLower =
      (if neg then ['-'] else []) ++ c :: t := by
    apply map_id_of
    intro x hx
    rcases hmemChar x hx with h | h | h
    · exact charDigit_toLower x h
    · subst h; decide
    · subst h; decide
  have hnou : '_' ∉ (if neg then ['-'] else []) ++ c :: t := by
    intro hu
    rcases hmemChar '_' hu with h | h | h
    · exact absurd h (by decide)
    · exact absurd h (by decide)
    · exact absurd h (by decide)
  have huok : uOk none ((if neg then ['-'] else []) ++ c :: t) = true :=
    uOk_no_underscore _ hnou none
  have hfil : ((if neg then ['-'] else []) ++ c :: t).filter (fun x => decide (x ≠ '_')) =
      (if neg then ['-'] else []) ++ c :: t := by
    apply filter_self_of
    intro x hx
    simp only [decide_eq_true_eq]
    intro he
    subst he
    exact hnou hx
  have hsplit : splitSign ((if neg then ['-'] else []) ++ c :: t) = (neg, c :: t) := by
    cases neg with
    | true => simp [splitSign]
    | false => simpa using splitSign_digit c t hc
  have hninf1 : ¬ (c :: t = ['i', 'n', 'f'] ∨ c :: t = ['i', 'n', 'f', 'i', 'n', 'i', 't', 'y']) := by
    rintro (h | h) <;>
      (have hc' : c = 'i' := by injection h
       exact absurd (hc' ▸ hc) (by decide))
  have hnnan : ¬ (c :: t = ['n', 'a', 'n']) := by
    intro h
    have hc' : c = 'n' := by injection h
    exact absurd (hc' ▸ hc) (by decide)
  simp only [parseFloatList, hstrip, hmap, huok, if_true, hfil, hsplit, hp]
  rw [if_neg hninf1, if_neg hnnan]

theorem canon_natAbs (m : ℤ) (hm0 : m ≠ 0) (hd : ¬ (10 : ℤ) ∣ m) :
    m.natAbs ≠ 0 ∧ ¬ 10 ∣ m.natAbs := by
  refine ⟨by omega, ?_⟩
  intro hdn
  apply hd
  have h10 : ((10 : ℕ) : ℤ) ∣ (m.natAbs : ℤ) := Int.natCast_dvd_natCast.mpr hdn
  rcases Int.natAbs_eq m with hcase | hcase
  · rw [hcase]; exact_mod_cast h10
  · rw [hcase]; exact dvd_neg.mpr (by exact_mod_cast h10)

theorem natDigitsStr_cons (n : ℕ) :
    ∃ c t, natDigitsStr n = c :: t := by
  cases h : natDigitsStr n with
  | nil => exact absurd h (natDigitsStr_ne_nil n)
  | cons c t => exact ⟨c, t, rfl⟩

theorem mkFinite_eq (m e : ℤ) (hm0 : m ≠ 0) (hd10 : ¬ (10 : ℤ) ∣ m)
    (N j : ℕ) (sc : ℤ) (hN : N = m.natAbs * 10 ^ j) (hsc : sc + j = e)
    (M : ℤ) (hMabs : M.natAbs = N) (hMsgn : M < 0 ↔ m < 0) :
    mkFinite M sc = PyFloat.finite m e := by
  obtain ⟨ha0, hdA⟩ := canon_natAbs m hm0 hd10
  have hM0 : M ≠ 0 := by
    intro h
    rw [h] at hMabs
    simp at hMabs
    rw [hN] at hMabs
    have : (10 : ℕ) ^ j ≠ 0 := by positivity
    rcases Nat.mul_eq_zero.mp hMabs.symm with h' | h'
    · exact ha0 h'
    · exact this h'
  have hstrip : strip10 M.natAbs = (m.natAbs, j) := by
    rw [hMabs, hN]
    exact strip10_mul j m.natAbs hdA ha0
  unfold mkFinite normDec
  rw [if_neg hM0]
  simp only [hstrip]
  by_cases hneg : M < 0
  · rw [if_pos hneg]
    have hmneg : m < 0 := hMsgn.mp hneg
    have habs : (m.natAbs : ℤ) = -m := by omega
    have : -((m.natAbs : ℕ) : ℤ) = m := by omega
    rw [this]
    have hee : sc + (j : ℤ) = e := hsc
    congr 1
  · rw [if_neg hneg]
    have hmpos : ¬ m < 0 := fun h => hneg (hMsgn.mpr h)
    have : ((m.natAbs : ℕ) : ℤ) = m := by omega
    rw [this]
    congr 1

theorem parseFloatList_neg_body (c : Char) (t : List Char)
    (hc : charDigit c = true)
    (hchars : ∀ x ∈ c :: t, charDigit x = true ∨ x = '.')
    (n : ℕ) (sc : ℤ) (hp : parseUnsignedNum (c :: t) = some (n, sc)) :
    parseFloatList ('-' :: c :: t) = some (mkFinite (-(n : ℤ)) sc) := by
  simpa using parseFloatList_signed true c t hc hchars n sc hp

theorem parseFloatList_pos_body (c : Char) (t : List Char)
    (hc : charDigit c = true)
    (hchars : ∀ x ∈ c :: t, charDigit x = true ∨ x = '.')
    (n : ℕ) (sc : ℤ) (hp : parseUnsignedNum (c :: t) = some (n, sc)) :
    parseFloatList (c :: t) = some (mkFinite ((n : ℤ)) sc) := by
  simpa using parseFloatList_signed false c t hc hchars n sc hp

theorem parse_renderFinite (m e : ℤ) (h : isCanon m e) :
    parseFloatList (renderFinite m e) = some (.finite m e) := by
  rcases h with ⟨hm0, he0⟩ | ⟨hm0, hd10⟩
  · subst hm0; subst he0; decide
  · obtain ⟨ha0, hdA⟩ := canon_natAbs m hm0 hd10
    obtain ⟨dc, dt, hD⟩ := natDigitsStr_cons m.natAbs
    have hDdig := natDigitsStr_all_digit m.natAbs
    have hdc : charDigit dc = true := hDdig dc (by rw [hD]; simp)
    have hDval : natFromDigits (natDigitsStr m.natAbs) = m.natAbs :=
      natFromDigits_natDigitsStr m.natAbs
    have hsgnNeg : ∀ X : List Char, m < 0 →
        (if m < 0 then ['-'] else ([] : List Char)) ++ X = '-' :: X := by
      intro X hneg
      rw [if_pos hneg]
      rfl
    have hsgnPos : ∀ X : List Char, ¬ m < 0 →
        (if m < 0 then ['-'] else ([] : List Char)) ++ X = X := by
      intro X hneg
      rw [if_neg hneg]
      rfl
    by_cases he : 0 ≤ e
    · -- e ≥ 0 : body is digits ++ zeros ++ ".0"
      set A := natDigitsStr m.natAbs ++ List.replicate e.toNat '0' with hA
      have hAdig : ∀ c ∈ A, charDigit c = true := by
        intro c hc
        rcases List.mem_append.mp hc with hc' | hc'
        · exact hDdig c hc'
        · rw [List.eq_of_mem_replicate hc']; decide
      have hAval : natFromDigits A = m.natAbs * 10 ^ e.toNat := by
        rw [hA, natFromDigits_append, natFromDigits_replicate_zero, hDval,
          List.length_replicate]
        ring
      have hp : parseUnsignedNum (A ++ '.' :: ['0']) =
          some (natFromDigits (A ++ ['0']), -(1 : ℤ)) := by
        have hs := parseUnsignedNum_shape A ['0'] hAdig
          (by intro c hc; simp at hc; subst hc; rfl) (Or.inl (by rw [hA, hD]; simp))
        simpa using hs
      have hNval : natFromDigits (A ++ ['0']) = m.natAbs * 10 ^ (e.toNat + 1) := by
        rw [natFromDigits_append, hAval]
        have h00 : natFromDigits ['0'] = 0 := rfl
        rw [h00]
        simp [pow_succ]
        ring
      have hACons : A ++ '.' :: ['0'] =
          dc :: (dt ++ List.replicate e.toNat '0' ++ '.' :: ['0']) := by
        rw [hA, hD]
        simp
      have hchars : ∀ x ∈ A ++ '.' :: ['0'], charDigit x = true ∨ x = '.' := by
        intro x hx
        rcases List.mem_append.mp hx with hx' | hx'
        · left; exact hAdig x hx'
        · rcases List.mem_cons.mp hx' with rfl | hx''
          · right; rfl
          · left; simp at hx''; subst hx''; rfl
      have hrender : renderFinite m e =
          (if m < 0 then ['-'] else []) ++ (A ++ '.' :: ['0']) := by
        simp only [renderFinite, if_pos he, hA]
        simp [List.append_assoc]
      rw [hrender]
      by_cases hneg : m < 0
      · rw [hsgnNeg _ hneg, hACons]
        rw [parseFloatList_neg_body dc _ hdc (hACons ▸ hchars) _ _ (hACons ▸ hp)]
        congr 1
        apply mkFinite_eq m e hm0 hd10 (natFromDigits (A ++ ['0'])) (e.toNat + 1) (-1)
          hNval (by omega) _ (by simp)
        constructor
        · intro; exact hneg
        · intro
          have hNpos : 0 < natFromDigits (A ++ ['0']) := by rw [hNval]; positivity
          omega
      · rw [hsgnPos _ hneg, hACons]
        rw [parseFloatList_pos_body dc _ hdc (hACons ▸ hchars) _ _ (hACons ▸ hp)]
        congr 1
        apply mkFinite_eq m e hm0 hd10 (natFromDigits (A ++ ['0'])) (e.toNat + 1) (-1)
          hNval (by omega) _ (by simp)
        constructor
        · intro hlt
          exfalso
          have hge : (0 : ℤ) ≤ ((natFromDigits (A ++ ['0'])) : ℤ) := by positivity
          omega
        · intro hlt; exact absurd hlt hneg
    · -- e < 0
      set L := (natDigitsStr m.natAbs).length with hL
      set k := (-e).toNat with hk
      have hke : -(k : ℤ) = e := by omega
      by_cases hkL : k < L
      · -- point inside the digit string
        set A := (natDigitsStr m.natAbs).take (L - k) with hA
        set B := (natDigitsStr m.natAbs).drop (L - k) with hB
        have hAdig : ∀ c ∈ A, charDigit c = true := fun c hc =>
          hDdig c (List.take_subset _ _ hc)
        have hBdig : ∀ c ∈ B, charDigit c = true := fun c hc =>
          hDdig c (List.drop_subset _ _ hc)
        have hABD : A ++ B = natDigitsStr m.natAbs := List.take_append_drop _ _
        have hAne : A ≠ [] := by
          rw [hA]
          intro hnil
          have := congrArg List.length hnil
          simp [List.length_take] at this
          omega
        obtain ⟨c0, t0, hAc⟩ : ∃ c0 t0, A = c0 :: t0 := by
          cases hAcase : A with
          | nil => exact absurd hAcase hAne
          | cons c0 t0 => exact ⟨c0, t0, rfl⟩
        have hc0 : charDigit c0 = true := hAdig c0 (by rw [hAc]; simp)
        have hBlen : B.length = k := by
          rw [hB, List.length_drop]
          omega
        have hp : parseUnsignedNum (A ++ '.' :: B) =
            some (natFromDigits (A ++ B), -(k : ℤ)) := by
          have hs := parseUnsignedNum_shape A B hAdig hBdig (Or.inl hAne)
          rw [hBlen] at hs
          exact hs
        have hNval : natFromDigits (A ++ B) = m.natAbs * 10 ^ 0 := by
          rw [hABD, hDval]
          simp
        have hACons : A ++ '.' :: B = c0 :: (t0 ++ '.' :: B) := by rw [hAc]; simp
        have hchars : ∀ x ∈ A ++ '.' :: B, charDigit x = true ∨ x = '.' := by
          intro x hx
          rcases List.mem_append.mp hx with hx' | hx'
          · left; exact hAdig x hx'
          · rcases List.mem_cons.mp hx' with rfl | hx''
            · right; rfl
            · left; exact hBdig x hx''
        have hrender : renderFinite m e =
            (if m < 0 then ['-'] else []) ++ (A ++ '.' :: B) := by
          simp only [renderFinite, if_neg (by omega : ¬ 0 ≤ e), ← hk, ← hL, if_pos hkL,
            hA, hB]
          simp [List.append_assoc]
        rw [hrender]
        by_cases hneg : m < 0
        · rw [hsgnNeg _ hneg, hACons]
          rw [parseFloatList_neg_body c0 _ hc0 (hACons ▸ hchars) _ _ (hACons ▸ hp)]
          congr 1
          apply mkFinite_eq m e hm0 hd10 (natFromDigits (A ++ B)) 0 (-(k : ℤ))
            hNval (by omega) _ (by simp)
          constructor
          · intro; exact hneg
          · intro
            have hNpos : 0 < natFromDigits (A ++ B) := by
              rw [hNval]
              simpa using Nat.pos_of_ne_zero ha0
            omega
        · rw [hsgnPos _ hneg, hACons]
          rw [parseFloatList_pos_body c0 _ hc0 (hACons ▸ hchars) _ _ (hACons ▸ hp)]
          congr 1
          apply mkFinite_eq m e hm0 hd10 (natFromDigits (A ++ B)) 0 (-(k : ℤ))
            hNval (by omega) _ (by simp)
          constructor
          · intro hlt
            exfalso
            have hge : (0 : ℤ) ≤ ((natFromDigits (A ++ B)) : ℤ) := by positivity
            omega
          · intro hlt; exact absurd hlt hneg
      · -- leading "0." with zero padding
        set B := List.replicate (k - L) '0' ++ natDigitsStr m.natAbs with hB
        have hBdig : ∀ c ∈ B, charDigit c = true := by
          intro c hc
          rcases List.mem_append.mp hc with hc' | hc'
          · rw [List.eq_of_mem_replicate hc']; decide
          · exact hDdig c hc'
        have hBlen : B.length = k := by
          rw [hB, List.length_append, List.length_replicate, ← hL]
          omega
        have hp : parseUnsignedNum (['0'] ++ '.' :: B) =
            some (natFromDigits (['0'] ++ B), -(k : ℤ)) := by
          have hs := parseUnsignedNum_shape ['0'] B (by intro c hc; simp at hc; subst hc; rfl)
            hBdig (Or.inl (by simp))
          rw [hBlen] at hs
          exact hs
        have hNval : natFromDigits (['0'] ++ B) = m.natAbs * 10 ^ 0 := by
          rw [natFromDigits_append, hB, natFromDigits_append,
            natFromDigits_replicate_zero, hDval]
          have h00 : natFromDigits ['0'] = 0 := rfl
          rw [h00]
          simp
        have hchars : ∀ x ∈ '0' :: '.' :: B, charDigit x = true ∨ x = '.' := by
          intro x hx
          rcases List.mem_cons.mp hx with rfl | hx'
          · left; rfl
          · rcases List.mem_cons.mp hx' with rfl | hx''
            · right; rfl
            · left; exact hBdig x hx''
        have hrender : renderFinite m e =
            (if m < 0 then ['-'] else []) ++ ('0' :: '.' :: B) := by
          simp only [renderFinite, if_neg (by omega : ¬ 0 ≤ e), ← hk, ← hL, if_neg hkL,
            hB]
          simp [List.append_assoc]
        rw [hrender]
        have hpc : parseUnsignedNum ('0' :: '.' :: B) =
            some (natFromDigits (['0'] ++ B), -(k : ℤ)) := hp
        by_cases hneg : m < 0
        · rw [hsgnNeg _ hneg]
          rw [parseFloatList_neg_body '0' ('.' :: B) (by rfl) hchars _ _ hpc]
          congr 1
          apply mkFinite_eq m e hm0 hd10 (natFromDigits (['0'] ++ B)) 0 (-(k : ℤ))
            hNval (by omega) _ (by simp)
          constructor
          · intro; exact hneg
          · intro
            have hNpos : 0 < natFromDigits (['0'] ++ B) := by
              rw [hNval]
              simpa using Nat.pos_of_ne_zero ha0
            omega
        · rw [hsgnPos _ hneg]
          rw [parseFloatList_pos_body '0' ('.' :: B) (by rfl) hchars _ _ hpc]
          congr 1
          apply mkFinite_eq m e hm0 hd10 (natFromDigits (['0'] ++ B)) 0 (-(k : ℤ))
            hNval (by omega) _ (by simp)
          constructor
          · intro hlt
            exfalso
            have hge : (0 : ℤ) ≤ ((natFromDigits (['0'] ++ B)) : ℤ) := by positivity
            omega
          · intro hlt; exact absurd hlt hneg

theorem digitsLE_unfold (f n : ℕ) (hn : n ≠ 0) (hf : n ≤ f) :
    digitsLE f n = n % 10 :: digitsLE f (n / 10) := by
  cases f with
  | zero => omega
  | succ f =>
    have h1 : digitsLE (f + 1) n =
        if n = 0 then [] else n % 10 :: digitsLE f (n / 10) := rfl
    rw [h1, if_neg hn]
    have hlt : n / 10 < n := Nat.div_lt_self (by omega) (by norm_num)
    rw [digitsLE_fuel f (f + 1) (n / 10) (by omega) (by omega)]

theorem natDigitsStr_mul10 (b : ℕ) (hb : b ≠ 0) :
    natDigitsStr (b * 10) = natDigitsStr b ++ ['0'] := by
  have hb10 : b * 10 ≠ 0 := by omega
  have hstep : digitsLE (b * 10) (b * 10) = 0 :: digitsLE b b := by
    rw [digitsLE_unfold (b * 10) (b * 10) hb10 le_rfl]
    have h1 : b * 10 % 10 = 0 := by omega
    have h2 : b * 10 / 10 = b := by omega
    rw [h1, h2, digitsLE_fuel (b * 10) b b (by omega) le_rfl]
  simp only [natDigitsStr, hb, hb10, if_false]
  rw [hstep]
  simp [digitChar]

theorem natDigitsStr_mul_pow10 (a k : ℕ) (ha : a ≠ 0) :
    natDigitsStr (a * 10 ^ k) = natDigitsStr a ++ List.replicate k '0' := by
  induction k with
  | zero => simp
  | succ k ih =>
    have heq : a * 10 ^ (k + 1) = (a * 10 ^ k) * 10 := by ring
    rw [heq, natDigitsStr_mul10 _ (by positivity), ih]
    rw [List.replicate_succ']
    simp [List.append_assoc]

theorem mkFinite_normDec (M E : ℤ) :
    mkFinite M E = PyFloat.finite (normDec M E).1 (normDec M E).2 := rfl

theorem normDec_neg_natCast (a : ℕ) (E : ℤ) (ha : a ≠ 0) :
    normDec (-((a : ℕ) : ℤ)) E =
      (-(((strip10 a).1 : ℕ) : ℤ), E + ((strip10 a).2 : ℤ)) := by
  simp only [normDec]
  rw [if_neg (by omega : ¬ -((a : ℕ) : ℤ) = 0)]
  have habs : (-((a : ℕ) : ℤ)).natAbs = a := by omega
  rw [habs, if_pos (by omega : -((a : ℕ) : ℤ) < 0)]

theorem normDec_pos_natCast (a : ℕ) (E : ℤ) (ha : a ≠ 0) :
    normDec (((a : ℕ) : ℤ)) E =
      ((((strip10 a).1 : ℕ) : ℤ), E + ((strip10 a).2 : ℤ)) := by
  simp only [normDec]
  rw [if_neg (by omega : ¬ ((a : ℕ) : ℤ) = 0)]
  have habs : (((a : ℕ) : ℤ)).natAbs = a := by omega
  rw [habs, if_neg (by omega : ¬ ((a : ℕ) : ℤ) < 0)]

theorem parse_intRender (x : ℤ) :
    ∃ m e : ℤ, parseFloatList (intRender x) = some (.finite m e) ∧
      0 ≤ e ∧ truncVal m e = x := by
  obtain ⟨dc, dt, hD⟩ := natDigitsStr_cons x.natAbs
  have hDdig := natDigitsStr_all_digit x.natAbs
  have hdc : charDigit dc = true := hDdig dc (by rw [hD]; simp)
  have hDval : natFromDigits (natDigitsStr x.natAbs) = x.natAbs :=
    natFromDigits_natDigitsStr x.natAbs
  have hp : parseUnsignedNum (natDigitsStr x.natAbs) = some (x.natAbs, 0) := by
    have hp0 := parseUnsignedNum_digits _ hDdig (natDigitsStr_ne_nil x.natAbs)
    rw [hDval] at hp0
    exact hp0
  have hchars : ∀ c ∈ natDigitsStr x.natAbs, charDigit c = true ∨ c = '.' :=
    fun c hc => Or.inl (hDdig c hc)
  by_cases hx0 : x = 0
  · subst hx0
    exact ⟨0, 0, by decide, le_rfl, by decide⟩
  · have ha0 : x.natAbs ≠ 0 := by omega
    have hs := strip10_spec x.natAbs ha0
    have hval : ((strip10 x.natAbs).1 : ℤ) * 10 ^ (strip10 x.natAbs).2 =
        ((x.natAbs : ℕ) : ℤ) := by
      exact_mod_cast congrArg (Nat.cast : ℕ → ℤ) hs.1
    by_cases hneg : x < 0
    · refine ⟨-((strip10 x.natAbs).1 : ℤ), ((strip10 x.natAbs).2 : ℤ), ?_, by positivity, ?_⟩
      · have hbody : intRender x = '-' :: natDigitsStr x.natAbs := by
          simp [intRender, if_pos hneg]
        rw [hbody, hD,
          parseFloatList_neg_body dc dt hdc (hD ▸ hchars) x.natAbs 0 (hD ▸ hp)]
        rw [mkFinite_normDec, normDec_neg_natCast x.natAbs 0 ha0]
        norm_num
      · unfold truncVal
        rw [if_pos (by positivity : (0 : ℤ) ≤ ((strip10 x.natAbs).2 : ℤ))]
        have h2 : ((strip10 x.natAbs).2 : ℤ).toNat = (strip10 x.natAbs).2 := by simp
        rw [h2]
        have hgoal : -((strip10 x.natAbs).1 : ℤ) * 10 ^ (strip10 x.natAbs).2 =
            -(((x.natAbs : ℕ) : ℤ)) := by
          rw [← hval]; ring
        rw [hgoal]
        omega
    · refine ⟨((strip10 x.natAbs).1 : ℤ), ((strip10 x.natAbs).2 : ℤ), ?_, by positivity, ?_⟩
      · have hbody : intRender x = natDigitsStr x.natAbs := by
          simp [intRender, if_neg hneg]
        rw [hbody, hD,
          parseFloatList_pos_body dc dt hdc (hD ▸ hchars) x.natAbs 0 (hD ▸ hp)]
        rw [mkFinite_normDec, normDec_pos_natCast x.natAbs 0 ha0]
        norm_num
      · unfold truncVal
        rw [if_pos (by positivity : (0 : ℤ) ≤ ((strip10 x.natAbs).2 : ℤ))]
        have h2 : ((strip10 x.natAbs).2 : ℤ).toNat = (strip10 x.natAbs).2 := by simp
        rw [h2, hval]
        omega

/-! ## Embedded source: utilities of src/API_Call1.py -/

/-- Python exception classes that can escape the modelled code. -/
inductive PyExc where
  | runtimeError   -- missing LLAMA_API_KEY
  | valueError     -- parse_response on a malformed payload
  | overflowError  -- int(float("inf"))
  | indexError     -- list index out of range (pop / [0])
  | keyError       -- dict lookup failure
  | netError       -- requests.post raised
deriving DecidableEq, Repr

instance exceptDecEq {ε α : Type} [DecidableEq ε] [DecidableEq α] :
    DecidableEq (Except ε α) := fun a b =>
  match a, b with
  | .ok x, .ok y =>
    if h : x = y then isTrue (by rw [h])
    else isFalse (by intro hh; injection hh; contradiction)
  | .error x, .error y =>
    if h : x = y then isTrue (by rw [h])
    else isFalse (by intro hh; injection hh; contradiction)
  | .ok _, .error _ => isFalse fun hh => Except.noConfusion hh
  | .error _, .ok _ => isFalse fun hh => Except.noConfusion hh

def affirmWords : List String := ["yes", "yeah", "yep", "true", "of course"]

def negWords : List String := ["no", "nope", "nah", "false"]

/-- `clean_value` (src/API_Call1.py lines 20-45).  The `int` branch is
`str(int(float(val.replace(",", ""))))`: `int(nan)` raises `ValueError`
(caught by the source's `except ValueError`), while `int(inf)` raises
`OverflowError`, which the source does not catch.  The `float` branch is
`str(float(val.replace(",", "").replace("$", "")))` and cannot raise. -/
def clean_value (raw_value : Option String) (expected_type : String) :
    Except PyExc (Option String) :=
  match raw_value with
  | none => .ok none
  | some raw =>
    let val := pyLower (pyStrip raw)
    if expected_type = "boolean" ∧ containsAny val affirmWords then .ok (some "yes")
    else if expected_type = "boolean" ∧ containsAny val negWords then .ok (some "no")
    else if expected_type = "int" then
      match parseFloatList (val.data.filter fun c => c ≠ ',') with
      | none => .ok none                      -- ValueError, caught
      | some .nan => .ok none                 -- int(nan): ValueError, caught
      | some .inf => .error .overflowError    -- int(inf): not caught
      | some .ninf => .error .overflowError
      | some (.finite m e) => .ok (some (String.mk (intRender (truncVal m e))))
    else if expected_type = "float" then
      match parseFloatList ((val.data.filter fun c => c ≠ ',').filter fun c => c ≠ '$') with
      | none => .ok none
      | some f => .ok (some (renderPyFloat f))
    else .ok (some (pyStrip raw))

/-- `normalize_type` (src/API_Call1.py lines 56-61). -/
def normalize_type (type_str : String) : String :=
  let l := pyLower type_str
  if l = "phone" then "text"
  else if l = "date" then "datetime"
  else if l = "string" then "text"
  else l

/-- Python `str.isdigit()` restricted to ASCII: nonempty and all digits. -/
def pyIsDigit (s : String) : Bool := !s.data.isEmpty && s.data.all charDigit

/-- `validate_answer` (src/API_Call1.py lines 73-106).  `dateutil`'s
`parse` is the abstract predicate `pd`; the `float` branch's
`float(cleaned)` succeeds exactly when the model parser accepts. -/
def validate_answer (pd : String → Bool) (value : Option String)
    (expected_type : String) (options : List String) : Except PyExc Bool :=
  let t := normalize_type expected_type
  match clean_value value t with
  | .error e => .error e
  | .ok none => .ok false
  | .ok (some cleaned) =>
    if t = "text" then .ok (cleaned ≠ "")
    else if t = "int" then .ok (pyIsDigit cleaned)
    else if t = "float" then .ok (parseFloatList cleaned.data).isSome
    else if t = "datetime" then .ok (pd cleaned)
    else if t = "boolean" then .ok (cleaned = "yes" ∨ cleaned = "no")
    else if t = "multichoice" then
      .ok ((options.map pyLower).contains (pyLower cleaned))
    else .ok false

/-! ## Embedded source: LLaMA gateway and controller (src/API_Call1.py)

The network is an oracle stream consumed one entry per outbound call:
`.ok (some txt)` is a well-formed JSON payload whose
`completion_message.content.text` is `txt`, `.ok none` a payload missing
that shape (so `parse_response` raises `ValueError`), and `.error e` a call
that itself raised.  An exhausted stream is treated as a raising call. -/

structure Message where
  role : String
  content : String
deriving DecidableEq, Repr

/-- One field of the form schema (`Description` is prompt-only and never
read by the modelled code, so it is omitted). -/
structure FieldInfo where
  Value : String
  Type' : String
  Options : List String
  Required : Bool
deriving DecidableEq, Repr

abbrev Answers := List (String × FieldInfo)

abbrev NetResult := Except PyExc (Option String)

def takeOracle : List NetResult → NetResult × List NetResult
  | [] => (.error .netError, [])
  | h :: t => (h, t)

/-- Python `list.insert(1, x)` (clamping like CPython when the list is
shorter than the index). -/
def pyInsert1 (x : Message) : List Message → List Message
  | [] => [x]
  | h :: t => h :: x :: t

/-- Python `list.pop(1)`. -/
def pyPop1 : List Message → Except PyExc (List Message)
  | h :: _ :: t => .ok (h :: t)
  | _ => .error .indexError

/-- Python `list.pop()`. -/
def pyPopLast (l : List Message) : Except PyExc (List Message) :=
  if l.isEmpty then .error .indexError else .ok l.dropLast

/-- Python truthiness of `os.getenv(...)`: `None` and `""` are falsy. -/
def keyOk : Option String → Bool
  | none => false
  | some s => s ≠ ""

/-- `answered_summary_message` (src/API_Call1.py lines 116-127). -/
def answered_summary_message (answers : Answers) : Option Message :=
  if answers.isEmpty then none
  else
    let filled := answers.filter fun kv => pyStrip kv.2.Value ≠ ""
    if filled.isEmpty then none
    else some ⟨"system", "Here are the answers provided so far:\n" ++
      String.intercalate "\n" (filled.map fun kv => kv.1 ++ ": " ++ kv.2.Value)⟩

/-- `chat_completion` (src/API_Call1.py lines 130-149).  The summary
message is inserted at index 1 before the call and popped afterwards; there
is no `try`/`finally`, so when the call raises, the inserted message stays
in the transcript.  Returns (outcome, transcript state, remaining oracle). -/
def chat_completion (apiKey : Option String) (conversation : List Message)
    (answers : Answers) (oracle : List NetResult) :
    Except PyExc (Option String) × List Message × List NetResult :=
  if keyOk apiKey = false then (.error .runtimeError, conversation, oracle)
  else
    match answered_summary_message answers with
    | none =>
      match takeOracle oracle with
      | (.error e, rest) => (.error e, conversation, rest)
      | (.ok payload, rest) => (.ok payload, conversation, rest)
    | some msg =>
      let conv1 := pyInsert1 msg conversation
      match takeOracle oracle with
      | (.error e, rest) => (.error e, conv1, rest)
      | (.ok payload, rest) =>
        match pyPop1 conv1 with
        | .error e => (.error e, conv1, rest)
        | .ok conv2 => (.ok payload, conv2, rest)

/-- `parse_response` (src/API_Call1.py lines 110-114). -/
def parse_response (payload : Option String) : Except PyExc String :=
  match payload with
  | some t => .ok t
  | none => .error .valueError

def greetingWords : List String := ["hi", "hello", "letâ€™s start", "start"]

/-- First field whose lowered name equals the lowered reply
(the loop of src/API_Call1.py lines 170-173). -/
def findMatch (matchText : String) (unanswered_fields : List String) : Option String :=
  unanswered_fields.find? fun field => pyLower matchText == pyLower field

/-- `ask_llama_to_match_field` (src/API_Call1.py lines 153-173). -/
def ask_llama_to_match_field (apiKey : Option String) (conversation : List Message)
    (user_input : String) (unanswered_fields : List String) (answers : Answers)
    (oracle : List NetResult) :
    Except PyExc (Option String) × List Message × List NetResult :=
  if (pyStrip user_input).length < 3 ∨ greetingWords.contains (pyLower user_input) then
    (.ok none, conversation, oracle)
  else
    let prompt := "Based on the following unanswered fields: " ++
      String.intercalate ", " unanswered_fields ++
      "\nWhich one does this answer refer to?\n\nUser answer: \"" ++ user_input ++
      "\"\nRespond ONLY with the field name, exactly as written. If unsure, say: None"
    let conv1 := conversation ++ [⟨"user", prompt⟩]
    match chat_completion apiKey conv1 answers oracle with
    | (.error e, c, o) => (.error e, c, o)
    | (.ok payload, c, o) =>
      match parse_response payload with
      | .error e => (.error e, c, o)
      | .ok text =>
        let matchText := pyStrip text
        match pyPopLast c with
        | .error e => (.error e, c, o)
        | .ok c2 => (.ok (findMatch matchText unanswered_fields), c2, o)

/-- Python `', '.join(xs) or 'N/A'`. -/
def orNA (s : String) : String := if s = "" then "N/A" else s

/-- `extract_clean_answer` (src/API_Call1.py lines 177-208). -/
def extract_clean_answer (apiKey : Option String) (pd : String → Bool)
    (conversation : List Message) (field_name : String) (field_info : FieldInfo)
    (user_input : String) (answers : Answers) (oracle : List NetResult) :
    Except PyExc (Option String) × List Message × List NetResult :=
  let expected_type := field_info.Type'
  match clean_value (some user_input) expected_type with
  | .error e => (.error e, conversation, oracle)
  | .ok cleaned =>
    match validate_answer pd cleaned expected_type field_info.Options with
    | .error e => (.error e, conversation, oracle)
    | .ok true => (.ok cleaned, conversation, oracle)
    | .ok false =>
      let prompt := "Extract ONLY the value for this form field.\nField: " ++
        field_name ++ "\nExpected Type: " ++ expected_type ++ "\nOptions: " ++
        orNA (String.intercalate ", " field_info.Options) ++ "\nUser Input: \"" ++
        user_input ++ "\"\nRules:\n- Do NOT include any explanation, emoji, or commentary.\n- Do NOT add currency symbols, commas, or extra words.\n- Just return the raw number or answer.\n- If the input is clearly invalid, return exactly: Invalid input"
      let conv1 := conversation ++ [⟨"user", prompt⟩]
      match chat_completion apiKey conv1 answers oracle with
      | (.error e, c, o) => (.error e, c, o)
      | (.ok payload, c, o) =>
        match parse_response payload with
        | .error e => (.error e, c, o)
        | .ok t =>
          let extracted := pyStrip t
          match pyPopLast c with
          | .error e => (.error e, c, o)
          | .ok c2 =>
            match clean_value (some extracted) expected_type with
            | .error e => (.error e, c2, o)
            | .ok cleaned2 =>
              match validate_answer pd cleaned2 expected_type field_info.Options with
              | .error e => (.error e, c2, o)
              | .ok true => (.ok cleaned2, c2, o)
              | .ok false => (.ok none, c2, o)

/-- `generate_retry_prompt` (src/API_Call1.py lines 213-218). -/
def generate_retry_prompt (field_name : String) (field_info : FieldInfo)
    (user_input : String) : String :=
  "The user was asked to provide '" ++ field_name ++ "' (type: " ++
    field_info.Type' ++ ").\nInput: \"" ++ user_input ++
    "\" was invalid.\nPlease explain why and re-ask naturally."

/-! ## Embedded source: `process_user_message` (src/API_Call1.py lines 266-343) -/

def exit_phrases : List String :=
  ["i'm done", "done answering", "no more questions", "bye", "that's all"]

/-- First-match dictionary lookup (`answers[k]`; keys are unique in a
Python dict, so first-match semantics agree). -/
def lookupField (k : String) : Answers → Option FieldInfo
  | [] => none
  | kv :: rest => if kv.1 = k then some kv.2 else lookupField k rest

/-- In-place mutation `answers[k]["Value"] = w` (first match). -/
def setValue (k w : String) : Answers → Answers
  | [] => []
  | kv :: rest =>
    if kv.1 = k then (kv.1, { kv.2 with Value := w }) :: rest
    else kv :: setValue k w rest

def unansweredKeys (answers : Answers) : List String :=
  (answers.filter fun kv => pyStrip kv.2.Value = "").map Prod.fst

/-- Mutable state threaded through one controller turn: transcript,
answers, remaining oracle stream, and the `save_json` writes performed
(path, snapshot) in order. -/
structure PState where
  conversation : List Message
  answers : Answers
  oracle : List NetResult
  saved : List (String × Answers)
deriving Repr

def followupPrompt (next_unanswered : List String) : String :=
  "Cool! Now let's smoothly continue. Out of the remaining fields: " ++
    String.intercalate ", " next_unanswered ++
    ", whatâ€™s a fun or casual way to ask about the next one â€” without repeating the last response? Keep it witty, friendly, maybe throw in an emoji or two if it fits!"

def forcePrompt (user_input first_field ftype : String) : String :=
  "The user said: '" ++ user_input ++
    "', which doesn't map clearly to a question.\nGreet the user and kindly start the form by asking about the field: '" ++
    first_field ++ "' (type: " ++ ftype ++ "). Be friendly and natural."

def exitMessage : String := "âœ… Conversation ended. Thank you for your responses!"

def allAnsweredMessage : String := "âœ… All questions are answered and saved. Thank you!"

/-- One turn of the interview controller.  Returns the Python function's
`(message, done)` (the transcript and answers being threaded in the
state), or the exception that escaped, together with the final state. -/
def process_user_message (apiKey : Option String) (pd : String → Bool)
    (user_input : String) (answer_file_path : String) (st : PState) :
    Except PyExc (String × Bool) × PState :=
  let conv := st.conversation ++ [⟨"user", user_input⟩]
  if containsAny (pyLower user_input) exit_phrases then
    (.ok (exitMessage, true),
     ⟨conv, st.answers, st.oracle, st.saved ++ [(answer_file_path, st.answers)]⟩)
  else
    let unanswered := unansweredKeys st.answers
    match ask_llama_to_match_field apiKey conv user_input unanswered st.answers st.oracle with
    | (.error e, c, o) => (.error e, ⟨c, st.answers, o, st.saved⟩)
    | (.ok matchedOpt, c, o) =>
      -- Python `if matched_key:` — the empty string is falsy
      match (match matchedOpt with
             | some k => if k = "" then none else some k
             | none => none) with
      | some k =>
        match lookupField k st.answers with
        | none => (.error .keyError, ⟨c, st.answers, o, st.saved⟩)
        | some fi =>
          match extract_clean_answer apiKey pd c k fi user_input st.answers o with
          | (.error e, c2, o2) => (.error e, ⟨c2, st.answers, o2, st.saved⟩)
          | (.ok cleanedOpt, c2, o2) =>
            -- Python `if cleaned:` — None and "" both falsy
            match (match cleanedOpt with
                   | some s => if s = "" then none else some s
                   | none => none) with
            | some cval =>
              let answers2 := setValue k (pyStrip (firstSplit cval)) st.answers
              let next_unanswered := unansweredKeys answers2
              if next_unanswered.isEmpty then
                (.ok (allAnsweredMessage, true),
                 ⟨c2, answers2, o2, st.saved ++ [(answer_file_path, answers2)]⟩)
              else
                let c3 := c2 ++ [⟨"user", followupPrompt next_unanswered⟩]
                match chat_completion apiKey c3 answers2 o2 with
                | (.error e, c4, o3) => (.error e, ⟨c4, answers2, o3, st.saved⟩)
                | (.ok payload, c4, o3) =>
                  match parse_response payload with
                  | .error e => (.error e, ⟨c4, answers2, o3, st.saved⟩)
                  | .ok t =>
                    let ftext := pyStrip t
                    (.ok (ftext, false),
                     ⟨c4 ++ [⟨"assistant", ftext⟩], answers2, o3, st.saved⟩)
            | none =>
              let c3 := c2 ++ [⟨"user", generate_retry_prompt k fi user_input⟩]
              match chat_completion apiKey c3 st.answers o2 with
              | (.error e, c4, o3) => (.error e, ⟨c4, st.answers, o3, st.saved⟩)
              | (.ok payload, c4, o3) =>
                match parse_response payload with
                | .error e => (.error e, ⟨c4, st.answers, o3, st.saved⟩)
                | .ok t =>
                  let rmsg := pyStrip t
                  (.ok (rmsg, false),
                   ⟨c4 ++ [⟨"assistant", rmsg⟩], st.answers, o3, st.saved⟩)
      | none =>
        if st.answers.all fun kv => pyStrip kv.2.Value = "" then
          match st.answers with
          | [] => (.error .indexError, ⟨c, st.answers, o, st.saved⟩)
          | (k0, fi0) :: _ =>
            let c3 := c ++ [⟨"user", forcePrompt user_input k0 fi0.Type'⟩]
            match chat_completion apiKey c3 st.answers o with
            | (.error e, c4, o3) => (.error e, ⟨c4, st.answers, o3, st.saved⟩)
            | (.ok payload, c4, o3) =>
              match parse_response payload with
              | .error e => (.error e, ⟨c4, st.answers, o3, st.saved⟩)
              | .ok t =>
                let amsg := pyStrip t
                (.ok (amsg, false),
                 ⟨c4 ++ [⟨"assistant", amsg⟩], st.answers, o3, st.saved⟩)
        else
          match chat_completion apiKey c st.answers o with
          | (.error e, c4, o3) => (.error e, ⟨c4, st.answers, o3, st.saved⟩)
          | (.ok payload, c4, o3) =>
            match parse_response payload with
            | .error e => (.error e, ⟨c4, st.answers, o3, st.saved⟩)
            | .ok t =>
              let amsg := pyStrip t
              let c5 := c4 ++ [⟨"assistant", amsg⟩]
              if (unansweredKeys st.answers).isEmpty then
                (.ok (allAnsweredMessage, true),
                 ⟨c5, st.answers, o3, st.saved ++ [(answer_file_path, st.answers)]⟩)
              else
                (.ok (amsg, false), ⟨c5, st.answers, o3, st.saved⟩)

/-! ## Shape lemmas about cleaned values -/

theorem mem_sgn (m : ℤ) (c : Char)
    (h : c ∈ (if m < 0 then ['-'] else ([] : List Char))) : c = '-' := by
  by_cases hm : m < 0
  · rw [if_pos hm] at h; simpa using h
  · rw [if_neg hm] at h; simp at h

theorem renderFinite_chars (m e : ℤ) :
    ∀ c ∈ renderFinite m e, charDigit c = true ∨ c = '-' ∨ c = '.' := by
  intro c hc
  simp only [renderFinite] at hc
  split at hc
  · rcases List.mem_append.mp hc with hc1 | hc1
    · rcases List.mem_append.mp hc1 with hc2 | hc2
      · rcases List.mem_append.mp hc2 with hc3 | hc3
        · right; left; exact mem_sgn m c hc3
        · left; exact natDigitsStr_all_digit _ c hc3
      · rw [List.eq_of_mem_replicate hc2]; left; rfl
    · rcases List.mem_cons.mp hc1 with rfl | hc2
      · right; right; rfl
      · left; simp at hc2; subst hc2; rfl
  · split at hc
    · rcases List.mem_append.mp hc with hc1 | hc1
      · rcases List.mem_append.mp hc1 with hc2 | hc2
        · rcases List.mem_append.mp hc2 with hc3 | hc3
          · right; left; exact mem_sgn m c hc3
          · left; exact natDigitsStr_all_digit _ c (List.take_subset _ _ hc3)
        · simp at hc2; subst hc2; right; right; rfl
      · left; exact natDigitsStr_all_digit _ c (List.drop_subset _ _ hc1)
    · rcases List.mem_append.mp hc with hc1 | hc1
      · rcases List.mem_append.mp hc1 with hc2 | hc2
        · rcases List.mem_append.mp hc2 with hc3 | hc3
          · right; left; exact mem_sgn m c hc3
          · rcases List.mem_cons.mp hc3 with rfl | hc4
            · left; rfl
            · simp at hc4; subst hc4; right; right; rfl
        · rw [List.eq_of_mem_replicate hc2]; left; rfl
      · left; exact natDigitsStr_all_digit _ c hc1

theorem intRender_chars (n : ℤ) :
    ∀ c ∈ intRender n, charDigit c = true ∨ c = '-' := by
  intro c hc
  simp only [intRender] at hc
  split at hc
  · rcases List.mem_cons.mp hc with rfl | hc'
    · right; rfl
    · left; exact natDigitsStr_all_digit _ c hc'
  · left; exact natDigitsStr_all_digit _ c hc

theorem renderPyFloat_chars (f : PyFloat) :
    ∀ c ∈ (renderPyFloat f).data,
      charDigit c = true ∨ c = '-' ∨ c = '.' ∨ c = 'i' ∨ c = 'n' ∨ c = 'f' ∨ c = 'a' := by
  intro c hc
  cases f with
  | finite m e =>
    rcases renderFinite_chars m e c hc with h | h | h
    · left; exact h
    · right; left; exact h
    · right; right; left; exact h
  | inf =>
    have hc' : c = 'i' ∨ c = 'n' ∨ c = 'f' := by simpa [renderPyFloat] using hc
    rcases hc' with rfl | rfl | rfl <;> decide
  | ninf =>
    have hc' : c = '-' ∨ c = 'i' ∨ c = 'n' ∨ c = 'f' := by simpa [renderPyFloat] using hc
    rcases hc' with rfl | rfl | rfl | rfl <;> decide
  | nan =>
    have hc' : c = 'n' ∨ c = 'a' := by
      have hm : c ∈ ['n', 'a', 'n'] := hc
      rcases List.mem_cons.mp hm with rfl | hm'
      · left; rfl
      · rcases List.mem_cons.mp hm' with rfl | hm''
        · right; rfl
        · left; simpa using hm''
    rcases hc' with rfl | rfl <;> decide

theorem parseFloatList_finite_canon (l : List Char) (m e : ℤ)
    (h : parseFloatList l = some (.finite m e)) : isCanon m e := by
  simp only [parseFloatList] at h
  split at h
  · split at h
    · exfalso
      split at h <;> simp at h
    · split at h
      · simp at h
      · split at h
        · rename_i p heq
          injection h with h'
          unfold mkFinite at h'
          injection h' with h1 h2
          rw [← h1, ← h2]
          exact normDec_canon _ _
        · simp at h
  · simp at h

theorem toLower_eq_self_of_gt (c : Char) (h : 90 < c.toNat) :
    Char.toLower c = c := by
  unfold Char.toLower
  rw [if_neg]
  omega

theorem clean_value_float_eq (raw : String) :
    clean_value (some raw) "float" =
      match parseFloatList
          ((((pyLower (pyStrip raw)).data.filter fun c => c ≠ ',').filter
            fun c => c ≠ '$')) with
      | none => .ok none
      | some f => .ok (some (renderPyFloat f)) := by
  simp only [clean_value]
  rw [if_neg fun h => absurd h.1 (by decide), if_neg fun h => absurd h.1 (by decide),
    if_neg (by decide), if_pos trivial]

theorem clean_value_int_eq (raw : String) :
    clean_value (some raw) "int" =
      match parseFloatList ((pyLower (pyStrip raw)).data.filter fun c => c ≠ ',') with
      | none => .ok none
      | some .nan => .ok none
      | some .inf => .error .overflowError
      | some .ninf => .error .overflowError
      | some (.finite m e) => .ok (some (String.mk (intRender (truncVal m e)))) := by
  simp only [clean_value]
  rw [if_neg fun h => absurd h.1 (by decide), if_neg fun h => absurd h.1 (by decide),
    if_pos trivial]

theorem clean_value_default_eq (t : String) (raw : String)
    (h1 : t ≠ "boolean") (h2 : t ≠ "int") (h3 : t ≠ "float") :
    clean_value (some raw) t = .ok (some (pyStrip raw)) := by
  simp only [clean_value]
  rw [if_neg fun h => absurd h.1 h1, if_neg fun h => absurd h.1 h1,
    if_neg h2, if_neg h3]

theorem clean_value_boolean_eq (raw : String) :
    clean_value (some raw) "boolean" =
      (if containsAny (pyLower (pyStrip raw)) affirmWords then .ok (some "yes")
       else if containsAny (pyLower (pyStrip raw)) negWords then .ok (some "no")
       else .ok (some (pyStrip raw))) := by
  simp only [clean_value]
  by_cases ha : containsAny (pyLower (pyStrip raw)) affirmWords
  · rw [if_pos ⟨trivial, ha⟩, if_pos ha]
  · rw [if_neg fun h => absurd h.2 ha, if_neg ha]
    by_cases hn : containsAny (pyLower (pyStrip raw)) negWords
    · rw [if_pos ⟨trivial, hn⟩, if_pos hn]
    · rw [if_neg fun h => absurd h.2 hn, if_neg hn, if_neg (by decide),
        if_neg (by decide)]

/-- A rendered float value passes unchanged through strip, lower, and the
comma/dollar filters of `clean_value`. -/
theorem renderPyFloat_stable (f : PyFloat) :
    (((pyLower (pyStrip (renderPyFloat f))).data.filter fun c => c ≠ ',').filter
      fun c => c ≠ '$') = (renderPyFloat f).data := by
  have hchars := renderPyFloat_chars f
  have hns : ∀ c ∈ (renderPyFloat f).data, pyIsSpace c = false := by
    intro c hc
    rcases hchars c hc with h | h | h | h | h | h | h
    · exact charDigit_not_space c h
    all_goals (subst h; decide)
  have hlow : ∀ c ∈ (renderPyFloat f).data, Char.toLower c = c := by
    intro c hc
    rcases hchars c hc with h | h | h | h | h | h | h
    · exact charDigit_toLower c h
    all_goals (subst h; decide)
  have hstrip : pyStrip (renderPyFloat f) = renderPyFloat f := by
    cases hmk : renderPyFloat f with
    | mk l =>
      rw [pyStrip_mk, stripL_no_space]
      intro c hc
      exact hns c (by rw [hmk]; exact hc)
  rw [hstrip]
  have hlowS : pyLower (renderPyFloat f) = renderPyFloat f := by
    cases hmk : renderPyFloat f with
    | mk l =>
      simp only [pyLower]
      rw [map_id_of _ _ fun c hc => hlow c (by rw [hmk]; exact hc)]
  rw [hlowS]
  rw [filter_self_of _ _ ?hc1, filter_self_of _ _ ?hc2]
  case hc1 =>
    intro c hc
    have hc' := List.mem_of_mem_filter hc
    simp only [decide_eq_true_eq]
    rcases hchars c hc' with h | h | h | h | h | h | h
    · exact charDigit_ne c h '$' (by decide)
    all_goals (subst h; decide)
  case hc2 =>
    intro c hc
    simp only [decide_eq_true_eq]
    rcases hchars c hc with h | h | h | h | h | h | h
    · exact charDigit_ne c h ',' (by decide)
    all_goals (subst h; decide)

theorem intRender_stable (n : ℤ) :
    ((pyLower (pyStrip (String.mk (intRender n)))).data.filter fun c => c ≠ ',') =
      intRender n := by
  have hchars := intRender_chars n
  have hstrip : stripL (intRender n) = intRender n := by
    apply stripL_no_space
    intro c hc
    rcases hchars c hc with h | h
    · exact charDigit_not_space c h
    · subst h; decide
  have hmap : (intRender n).map Char.toLower = intRender n := by
    apply map_id_of
    intro c hc
    rcases hchars c hc with h | h
    · exact charDigit_toLower c h
    · subst h; decide
  simp only [pyStrip, pyLower, hstrip, hmap]
  apply filter_self_of
  intro c hc
  simp only [decide_eq_true_eq]
  rcases hchars c hc with h | h
  · exact charDigit_ne c h ',' (by decide)
  · subst h; decide

theorem clean_float_idem (v c : String)
    (h : clean_value (some v) "float" = .ok (some c)) :
    clean_value (some c) "float" = .ok (some c) := by
  rw [clean_value_float_eq] at h
  cases hPm : parseFloatList (((pyLower (pyStrip v)).data.filter fun c => c ≠ ',').filter
      fun c => c ≠ '$') with
  | none => rw [hPm] at h; simp at h
  | some f =>
    rw [hPm] at h
    have hc : c = renderPyFloat f := by
      injection h with h'
      injection h' with h''
      exact h''.symm
    subst hc
    rw [clean_value_float_eq, renderPyFloat_stable]
    cases f with
    | finite m e =>
      rw [show (renderPyFloat (PyFloat.finite m e)).data = renderFinite m e from rfl,
        parse_renderFinite m e (parseFloatList_finite_canon _ m e hPm)]
    | inf => rw [show parseFloatList ((renderPyFloat PyFloat.inf).data) =
        some PyFloat.inf from by decide]
    | ninf => rw [show parseFloatList ((renderPyFloat PyFloat.ninf).data) =
        some PyFloat.ninf from by decide]
    | nan => rw [show parseFloatList ((renderPyFloat PyFloat.nan).data) =
        some PyFloat.nan from by decide]

theorem clean_int_idem (v c : String)
    (h : clean_value (some v) "int" = .ok (some c)) :
    clean_value (some c) "int" = .ok (some c) := by
  rw [clean_value_int_eq] at h
  cases hPm : parseFloatList ((pyLower (pyStrip v)).data.filter fun c => c ≠ ',') with
  | none => rw [hPm] at h; simp at h
  | some f =>
    rw [hPm] at h
    cases f with
    | nan => simp at h
    | inf => simp at h
    | ninf => simp at h
    | finite m e =>
      have hc : c = String.mk (intRender (truncVal m e)) := by
        injection h with h'
        injection h' with h''
        exact h''.symm
      subst hc
      rw [clean_value_int_eq, intRender_stable]
      obtain ⟨m', e', hpe, _, htr⟩ := parse_intRender (truncVal m e)
      rw [hpe]
      show Except.ok (some (String.mk (intRender (truncVal m' e')))) = _
      rw [htr]

theorem clean_boolean_idem (v c : String)
    (h : clean_value (some v) "boolean" = .ok (some c)) :
    clean_value (some c) "boolean" = .ok (some c) := by
  rw [clean_value_boolean_eq] at h
  split_ifs at h with ha hn
  · have hc : c = "yes" := by injection h with h'; injection h' with h''; exact h''.symm
    subst hc
    rw [clean_value_boolean_eq, if_pos (by decide)]
  · have hc : c = "no" := by injection h with h'; injection h' with h''; exact h''.symm
    subst hc
    rw [clean_value_boolean_eq, if_neg (by decide), if_pos (by decide)]
  · have hc : c = pyStrip v := by injection h with h'; injection h' with h''; exact h''.symm
    subst hc
    rw [clean_value_boolean_eq, pyStrip_idem, if_neg ha, if_neg hn]

theorem clean_default_idem (t : String) (v c : String)
    (h1 : t ≠ "boolean") (h2 : t ≠ "int") (h3 : t ≠ "float")
    (h : clean_value (some v) t = .ok (some c)) :
    clean_value (some c) t = .ok (some c) := by
  rw [clean_value_default_eq t v h1 h2 h3] at h
  have hc : c = pyStrip v := by injection h with h'; injection h' with h''; exact h''.symm
  subst hc
  rw [clean_value_default_eq t _ h1 h2 h3, pyStrip_idem]

theorem validate_answer_int_eq (pd : String → Bool) (value : Option String)
    (opts : List String) :
    validate_answer pd value "int" opts =
      match clean_value value "int" with
      | .error e => .error e
      | .ok none => .ok false
      | .ok (some cleaned) => .ok (pyIsDigit cleaned) := by
  simp only [validate_answer]
  rw [show normalize_type "int" = "int" from by decide]
  cases clean_value value "int" with
  | error e => rfl
  | ok o =>
    cases o with
    | none => rfl
    | some cleaned => rfl

/-- Does the comma-stripped input parse as `±inf` (the inputs on which the
source's `int(float(...))` raises an uncaught `OverflowError`)? -/
def parsesInfinite (s : String) : Bool :=
  match parseFloatList ((pyLower (pyStrip s)).data.filter fun c => c ≠ ',') with
  | some .inf => true
  | some .ninf => true
  | _ => false

def isOkE : Except ε α → Bool
  | .ok _ => true
  | .error _ => false

def supportedTypes : List String :=
  ["text", "int", "float", "datetime", "boolean", "multichoice"]

/-- Claim C3 (amended): `clean_value` never raises, except that with
expected type `"int"` an input whose comma-stripped form parses as an
infinite float (`"inf"`, `"-infinity"`, …) raises an uncaught
`OverflowError`; every other input, malformed ones included, yields a
normal result (`None` on extraction failure). -/
theorem claim_C3_clean_value_total (s t : String) :
    isOkE (clean_value (some s) t) = true ∨
      (t = "int" ∧ parsesInfinite s = true) := by
  by_cases hb : t = "boolean"
  · subst hb
    rw [clean_value_boolean_eq]
    split_ifs <;> left <;> rfl
  · by_cases hi : t = "int"
    · subst hi
      rw [clean_value_int_eq]
      cases hp : parseFloatList ((pyLower (pyStrip s)).data.filter fun c => c ≠ ',') with
      | none => left; rfl
      | some f =>
        cases f with
        | finite m e => left; rfl
        | nan => left; rfl
        | inf =>
          right
          refine ⟨rfl, ?_⟩
          unfold parsesInfinite
          rw [hp]
        | ninf =>
          right
          refine ⟨rfl, ?_⟩
          unfold parsesInfinite
          rw [hp]
    · by_cases hf : t = "float"
      · subst hf
        rw [clean_value_float_eq]
        cases parseFloatList (((pyLower (pyStrip s)).data.filter fun c => c ≠ ',').filter
            fun c => c ≠ '$') with
        | none => left; rfl
        | some f => left; rfl
      · rw [clean_value_default_eq t s hb hi hf]
        left; rfl

/-- Claim C3 counterexample: the claim as stated ("total, never raises")
fails — `clean_value("inf", "int")` models Python's uncaught
`OverflowError` from `int(float("inf"))`. -/
theorem claim_C3_counterexample :
    clean_value (some "inf") "int" = .error .overflowError := by decide

/-- Claim C5: for every supported type, re-cleaning an already-cleaned
valid value returns it unchanged. -/
theorem claim_C5_clean_value_idempotent (pd : String → Bool) (opts : List String)
    (t v c : String) (ht : t ∈ supportedTypes)
    (hclean : clean_value (some v) t = .ok (some c))
    (hvalid : validate_answer pd (some c) t opts = .ok true) :
    clean_value (some c) t = .ok (some c) := by
  fin_cases ht
  · exact clean_default_idem "text" v c (by decide) (by decide) (by decide) hclean
  · exact clean_int_idem v c hclean
  · exact clean_float_idem v c hclean
  · exact clean_default_idem "datetime" v c (by decide) (by decide) (by decide) hclean
  · exact clean_boolean_idem v c hclean
  · exact clean_default_idem "multichoice" v c (by decide) (by decide) (by decide) hclean

/-- Claim C5 witness at `t = "float"`, `v = "$1,200"`. -/
theorem claim_C5_witness :
    "float" ∈ supportedTypes ∧
    clean_value (some "$1,200") "float" = .ok (some "1200.0") ∧
    validate_answer (fun _ => false) (some "1200.0") "float" [] = .ok true ∧
    clean_value (some "1200.0") "float" = .ok (some "1200.0") :=
  ⟨by decide, by decide, by decide,
    claim_C5_clean_value_idempotent (fun _ => false) [] "float" "$1,200" "1200.0"
      (by decide) (by decide) (by decide)⟩

/-- Claim C9: boolean cleaning tests the affirmative lexicon first, so any
input containing one affirmative and one negative token cleans to "yes". -/
theorem claim_C9_boolean_affirmative_first (s : String)
    (ha : containsAny (pyLower (pyStrip s)) affirmWords = true)
    (hn : containsAny (pyLower (pyStrip s)) negWords = true) :
    clean_value (some s) "boolean" = .ok (some "yes") := by
  rw [clean_value_boolean_eq, if_pos ha]

/-- Claim C9 witness: `"of course not"` contains an affirmative and a
negative token and cleans to "yes". -/
theorem claim_C9_witness :
    containsAny (pyLower (pyStrip "of course not")) affirmWords = true ∧
    containsAny (pyLower (pyStrip "of course not")) negWords = true ∧
    clean_value (some "of course not") "boolean" = .ok (some "yes") :=
  ⟨by decide, by decide,
    claim_C9_boolean_affirmative_first "of course not" (by decide) (by decide)⟩

/-- Claim C10: an input parsing (after comma stripping) to a negative
truncated value cleans to a minus-prefixed canonical string, which
`validate_answer` rejects for type `"int"` because it is not all digits. -/
theorem claim_C10_int_never_negative (pd : String → Bool) (opts : List String)
    (s c : String) (m e : ℤ)
    (hclean : clean_value (some s) "int" = .ok (some c))
    (hparse : parseFloatList ((pyLower (pyStrip s)).data.filter fun ch => ch ≠ ',') =
      some (.finite m e))
    (hneg : truncVal m e < 0) :
    (∃ rest, c.data = '-' :: rest) ∧
      validate_answer pd (some s) "int" opts = .ok false := by
  rw [clean_value_int_eq, hparse] at hclean
  have hc : c = String.mk (intRender (truncVal m e)) := by
    injection hclean with h'
    injection h' with h''
    exact h''.symm
  subst hc
  have hir : intRender (truncVal m e) = '-' :: natDigitsStr (truncVal m e).natAbs := by
    simp [intRender, if_pos hneg]
  constructor
  · exact ⟨natDigitsStr (truncVal m e).natAbs, by rw [show (String.mk
      (intRender (truncVal m e))).data = intRender (truncVal m e) from rfl, hir]⟩
  · rw [validate_answer_int_eq, clean_value_int_eq, hparse]
    show Except.ok (pyIsDigit (String.mk (intRender (truncVal m e)))) = Except.ok false
    rw [hir]
    simp [pyIsDigit, List.all_cons, show charDigit '-' = false from rfl]

/-- Claim C10 witness at input `"-5"`. -/
theorem claim_C10_witness :
    clean_value (some "-5") "int" = .ok (some "-5") ∧
    ((∃ rest, ("-5" : String).data = '-' :: rest) ∧
      validate_answer (fun _ => false) (some "-5") "int" [] = .ok false) :=
  ⟨by decide,
    claim_C10_int_never_negative (fun _ => false) [] "-5" "-5" (-5) 0
      (by decide) (by decide) (by decide)⟩

/-- Claim C7: utterances under three characters (stripped) or in the
greeting lexicon return no match without touching the oracle stream. -/
theorem claim_C7_matcher_short_circuit (apiKey : Option String)
    (conv : List Message) (u : String) (fields : List String)
    (answers : Answers) (oracle : List NetResult)
    (h : (pyStrip u).length < 3 ∨ greetingWords.contains (pyLower u) = true) :
    ask_llama_to_match_field apiKey conv u fields answers oracle =
      (.ok none, conv, oracle) := by
  unfold ask_llama_to_match_field
  rw [if_pos h]

/-- Claim C7 witness at the utterance `"hi"`. -/
theorem claim_C7_witness :
    ((pyStrip "hi").length < 3 ∨ greetingWords.contains (pyLower "hi") = true) ∧
    ask_llama_to_match_field (some "k") [] "hi" ["Name"] [] [.ok (some "Name")] =
      (.ok none, [], [.ok (some "Name")]) :=
  ⟨Or.inr (by decide),
    claim_C7_matcher_short_circuit (some "k") [] "hi" ["Name"] [] [.ok (some "Name")]
      (Or.inr (by decide))⟩

theorem takeOracle_ok (oracle : List NetResult) (p : Option String)
    (rest : List NetResult) (h : takeOracle oracle = (.ok p, rest)) :
    oracle = .ok p :: rest := by
  cases oracle with
  | nil => simp [takeOracle] at h
  | cons a t =>
    simp only [takeOracle] at h
    injection h with h1 h2
    rw [h1, h2]

/-- A successful gateway round trip consumes exactly the head of the
oracle stream, which must be a non-raising call. -/
theorem chat_completion_ok (apiKey : Option String) (conv : List Message)
    (answers : Answers) (oracle : List NetResult) (p : Option String)
    (c' : List Message) (o' : List NetResult)
    (h : chat_completion apiKey conv answers oracle = (.ok p, c', o')) :
    oracle = .ok p :: o' := by
  unfold chat_completion at h
  split at h
  · simp at h
  · split at h
    · split at h
      · simp at h
      · rename_i heq
        injection h with h1 h2
        injection h2 with h2 h3
        rw [← h3]
        exact takeOracle_ok oracle p _ (by rw [heq, h1])
    · split at h
      · simp at h
      · rename_i payload rest heq
        dsimp only [] at h
        split at h
        · simp at h
        · injection h with h1 h2
          injection h2 with h2 h3
          rw [← h3]
          refine takeOracle_ok oracle p _ ?_
          rw [heq, h1]

/-- A non-short-circuited successful matcher call consumes exactly the
head oracle entry, whose stripped text drives the exact-match loop. -/
theorem ask_llama_ok_shape (apiKey : Option String) (conv : List Message)
    (u : String) (fields : List String) (answers : Answers)
    (oracle : List NetResult) (mOpt : Option String) (c' : List Message)
    (o' : List NetResult)
    (hns : ¬ ((pyStrip u).length < 3 ∨ greetingWords.contains (pyLower u) = true))
    (h : ask_llama_to_match_field apiKey conv u fields answers oracle =
      (.ok mOpt, c', o')) :
    ∃ r rest, oracle = .ok (some r) :: rest ∧ mOpt = findMatch (pyStrip r) fields := by
  unfold ask_llama_to_match_field at h
  rw [if_neg hns] at h
  dsimp only [] at h
  split at h
  · simp at h
  · rename_i payload c o heq
    split at h
    · simp at h
    · rename_i text hpr
      split at h
      · simp at h
      · rename_i c2 hpop
        injection h with h1 h2
        injection h2 with h2 h3
        have hoc := chat_completion_ok _ _ _ _ _ _ _ heq
        have hpayload : payload = some text := by
          cases payload with
          | none => simp [parse_response] at hpr
          | some t0 =>
            simp only [parse_response] at hpr
            injection hpr with hpr'
            rw [hpr']
        refine ⟨text, o, ?_, ?_⟩
        · rw [hoc, hpayload]
        · injection h1 with h1'
          rw [h1']

/-- Claim C8 (amended): a successful match is always a member of
`unanswered_fields` whose name equals the stripped oracle reply
case-insensitively and exactly; and the `"None"` sentinel yields no match
provided no unanswered field is itself named "none" case-insensitively
(the source treats a field literally named "None" as a genuine match). -/
theorem claim_C8_exact_match_and_sentinel :
    (∀ (apiKey : Option String) (conv : List Message) (u : String)
        (fields : List String) (answers : Answers) (oracle : List NetResult)
        (f : String) (c' : List Message) (o' : List NetResult),
      ask_llama_to_match_field apiKey conv u fields answers oracle =
          (.ok (some f), c', o') →
      f ∈ fields ∧ ∃ r rest, oracle = .ok (some r) :: rest ∧
        pyLower (pyStrip r) = pyLower f) ∧
    (∀ (apiKey : Option String) (conv : List Message) (u : String)
        (fields : List String) (answers : Answers) (oracle : List NetResult)
        (mo : Option String) (c' : List Message) (o' : List NetResult),
      (∀ g ∈ fields, pyLower g ≠ "none") →
      (∀ r rest, oracle = .ok (some r) :: rest → pyStrip r = "None") →
      ask_llama_to_match_field apiKey conv u fields answers oracle =
          (.ok mo, c', o') →
      mo = none) := by
  constructor
  · intro apiKey conv u fields answers oracle f c' o' h
    by_cases hsc : (pyStrip u).length < 3 ∨ greetingWords.contains (pyLower u) = true
    · rw [claim_C7_matcher_short_circuit apiKey conv u fields answers oracle hsc] at h
      simp at h
    · obtain ⟨r, rest, hor, hfm⟩ := ask_llama_ok_shape apiKey conv u fields answers
        oracle (some f) c' o' hsc h
      have hfind : fields.find? (fun field => pyLower (pyStrip r) == pyLower field) =
          some f := hfm.symm
      constructor
      · exact List.mem_of_find?_eq_some hfind
      · refine ⟨r, rest, hor, ?_⟩
        have hpred := List.find?_some hfind
        exact eq_of_beq hpred
  · intro apiKey conv u fields answers oracle mo c' o' hnone hsent h
    by_cases hsc : (pyStrip u).length < 3 ∨ greetingWords.contains (pyLower u) = true
    · rw [claim_C7_matcher_short_circuit apiKey conv u fields answers oracle hsc] at h
      injection h with h1 h2
      injection h1 with h1'
      exact h1'.symm
    · obtain ⟨r, rest, hor, hfm⟩ := ask_llama_ok_shape apiKey conv u fields answers
        oracle mo c' o' hsc h
      rw [hsent r rest hor] at hfm
      rw [hfm]
      unfold findMatch
      apply List.find?_eq_none.mpr
      intro g hg hbeq
      have heq : pyLower (pyStrip "None") = pyLower g := eq_of_beq hbeq
      rw [show pyLower (pyStrip "None") = "none" from by decide] at heq
      exact hnone g hg heq.symm

/-- Claim C8 witness: reply `" Name "` matches field `"Name"` exactly
after stripping, case-insensitively. -/
theorem claim_C8_witness :
    "Name" ∈ ["Name"] ∧ ∃ r rest,
      ([.ok (some " Name ")] : List NetResult) = .ok (some r) :: rest ∧
        pyLower (pyStrip r) = pyLower "Name" :=
  claim_C8_exact_match_and_sentinel.1 (some "k") [⟨"system", "s"⟩] "John Smith"
    ["Name"] [] [.ok (some " Name ")] "Name" [⟨"system", "s"⟩] [] (by decide)

/-- Claim C4: an utterance containing an exit phrase persists the answers,
reports the session done, and performs no field matching or extraction:
the transcript only gains the user message, the answers are untouched, the
oracle stream is not consumed, and exactly one save is appended. -/
theorem claim_C4_exit_phrase (apiKey : Option String) (pd : String → Bool)
    (u path : String) (st : PState)
    (h : containsAny (pyLower u) exit_phrases = true) :
    process_user_message apiKey pd u path st =
      (.ok (exitMessage, true),
       ⟨st.conversation ++ [⟨"user", u⟩], st.answers, st.oracle,
        st.saved ++ [(path, st.answers)]⟩) := by
  unfold process_user_message
  rw [if_pos h]

/-- Claim C4 witness: `"ok that's all for now"` terminates even though the
required field `"Name"` is still unanswered, without consuming the oracle. -/
theorem claim_C4_witness :
    containsAny (pyLower "ok that's all for now") exit_phrases = true ∧
    process_user_message (some "k") (fun _ => false) "ok that's all for now" "out.json"
        ⟨[⟨"system", "s"⟩], [("Name", ⟨"", "text", [], true⟩)], [.ok (some "x")], []⟩ =
      (.ok (exitMessage, true),
       ⟨[⟨"system", "s"⟩, ⟨"user", "ok that's all for now"⟩],
        [("Name", ⟨"", "text", [], true⟩)], [.ok (some "x")],
        [("out.json", [("Name", ⟨"", "text", [], true⟩)])]⟩) :=
  ⟨by decide,
    claim_C4_exit_phrase (some "k") (fun _ => false) "ok that's all for now" "out.json"
      ⟨[⟨"system", "s"⟩], [("Name", ⟨"", "text", [], true⟩)], [.ok (some "x")], []⟩
      (by decide)⟩

/-- Claim C1 (failing execution): `chat_completion` has no `try`/`finally`,
so when the network call raises, the summary message inserted at position 1
is NOT removed — the transcript is left in its spliced shape, contradicting
"removed afterward regardless of call outcome, including when the network
call itself raises". -/
theorem claim_C1_summary_left_on_raise :
    chat_completion (some "key") [⟨"system", "sys"⟩]
        [("Name", ⟨"John", "text", [], true⟩)] [.error .netError] =
      (.error .netError,
       [⟨"system", "sys"⟩,
        ⟨"system", "Here are the answers provided so far:\nName: John"⟩],
       []) := by
  decide

theorem parseUnsignedNum_dollar (X : List Char) :
    parseUnsignedNum ('$' :: X) = none := by
  have h1 : List.takeWhile (fun c => decide (c ≠ 'e')) ('$' :: X) =
      '$' :: List.takeWhile (fun c => decide (c ≠ 'e')) X :=
    List.takeWhile_cons_of_pos (by decide)
  have h2 : List.takeWhile (fun c => decide (c ≠ '.'))
        ('$' :: List.takeWhile (fun c => decide (c ≠ 'e')) X) =
      '$' :: List.takeWhile (fun c => decide (c ≠ '.'))
        (List.takeWhile (fun c => decide (c ≠ 'e')) X) :=
    List.takeWhile_cons_of_pos (by decide)
  simp only [parseUnsignedNum, h1, h2]
  rw [if_neg]
  intro hcond
  have hx := hcond.1
  rw [List.all_cons, show charDigit '$' = false from rfl] at hx
  simp at hx

theorem parseFloatList_dollar_none (X : List Char)
    (hX : ∀ c ∈ X, charDigit c = true) :
    parseFloatList ('$' :: X) = none := by
  have hns : ∀ c ∈ '$' :: X, pyIsSpace c = false := by
    intro c hc
    rcases List.mem_cons.mp hc with rfl | hc'
    · decide
    · exact charDigit_not_space c (hX c hc')
  have hstrip : stripL ('$' :: X) = '$' :: X := stripL_no_space _ hns
  have hmap : ('$' :: X).map Char.toLower = '$' :: X := by
    apply map_id_of
    intro c hc
    rcases List.mem_cons.mp hc with rfl | hc'
    · decide
    · exact charDigit_toLower c (hX c hc')
  have hnou : '_' ∉ '$' :: X := by
    intro hu
    rcases List.mem_cons.mp hu with h | h
    · exact absurd h (by decide)
    · exact absurd (hX '_' h) (by decide)
  have huok : uOk none ('$' :: X) = true := uOk_no_underscore _ hnou none
  have hfil : ('$' :: X).filter (fun x => decide (x ≠ '_')) = '$' :: X := by
    apply filter_self_of
    intro x hx
    simp only [decide_eq_true_eq]
    intro he
    subst he
    exact hnou hx
  have hsplit : splitSign ('$' :: X) = (false, '$' :: X) := by
    simp [splitSign]
  simp only [parseFloatList, hstrip, hmap, huok, if_true, hfil, hsplit]
  rw [if_neg (by rintro (h | h) <;> simp at h), if_neg (by simp),
    parseUnsignedNum_dollar]

theorem renderPyFloat_mkFinite_natCast (N : ℕ) :
    renderPyFloat (mkFinite ((N : ℕ) : ℤ) 0) =
      String.mk (natDigitsStr N ++ ['.', '0']) := by
  by_cases hN : N = 0
  · subst hN; decide
  · have hs := strip10_spec N hN
    have ha0 : (strip10 N).1 ≠ 0 := by
      intro h
      rw [h] at hs
      simp at hs
    rw [mkFinite_normDec, normDec_pos_natCast N 0 hN]
    simp only [renderPyFloat, renderFinite, zero_add]
    rw [if_neg (by omega : ¬ (((strip10 N).1 : ℕ) : ℤ) < 0)]
    rw [if_pos (by omega : (0 : ℤ) ≤ (((strip10 N).2 : ℕ) : ℤ))]
    have habs : ((((strip10 N).1 : ℕ) : ℤ)).natAbs = (strip10 N).1 := by omega
    have htn : ((((strip10 N).2 : ℕ) : ℤ)).toNat = (strip10 N).2 := by omega
    rw [habs, htn, List.nil_append]
    rw [show natDigitsStr (strip10 N).1 ++ List.replicate (strip10 N).2 '0' =
      natDigitsStr ((strip10 N).1 * 10 ^ (strip10 N).2) from
        (natDigitsStr_mul_pow10 _ _ ha0).symm]
    rw [hs.1]

/-- Claim C6 (amended): float cleaning strips dollar signs and commas —
for every digits-and-commas payload, `clean_value("$…", "float")` succeeds
and yields the canonical rendering — but int cleaning strips only commas,
so the same dollar-prefixed input under `"int"` fails and yields `None`. -/
theorem claim_C6_currency_stripping (ds : List Char)
    (hall : ∀ c ∈ ds, charDigit c = true ∨ c = ',')
    (hdig : ∃ c ∈ ds, charDigit c = true) :
    clean_value (some (String.mk ('$' :: ds))) "float" =
      .ok (some (String.mk
        (natDigitsStr (natFromDigits (ds.filter charDigit)) ++ ['.', '0']))) ∧
    clean_value (some (String.mk ('$' :: ds))) "int" = .ok none := by
  have hns : ∀ c ∈ '$' :: ds, pyIsSpace c = false := by
    intro c hc
    rcases List.mem_cons.mp hc with rfl | hc'
    · decide
    · rcases hall c hc' with h | h
      · exact charDigit_not_space c h
      · subst h; decide
  have hstrip : stripL ('$' :: ds) = '$' :: ds := stripL_no_space _ hns
  have hmap : ('$' :: ds).map Char.toLower = '$' :: ds := by
    apply map_id_of
    intro c hc
    rcases List.mem_cons.mp hc with rfl | hc'
    · decide
    · rcases hall c hc' with h | h
      · exact charDigit_toLower c h
      · subst h; decide
  have hdata : (pyLower (pyStrip (String.mk ('$' :: ds)))).data = '$' :: ds := by
    simp only [pyStrip, pyLower, hstrip, hmap]
  have hF : ds.filter (fun c => decide (c ≠ ',')) = ds.filter charDigit := by
    apply List.filter_congr
    intro c hc
    rcases hall c hc with h | h
    · simp only [decide_eq_true_eq, h]
      simpa using charDigit_ne c h ',' (by decide)
    · subst h
      decide
  have hFd : ∀ c ∈ ds.filter charDigit, charDigit c = true := by
    intro c hc
    exact (List.mem_filter.mp hc).2
  have hFne : ds.filter charDigit ≠ [] := by
    obtain ⟨c, hc, hcd⟩ := hdig
    intro hnil
    have : c ∈ ds.filter charDigit := List.mem_filter.mpr ⟨hc, hcd⟩
    rw [hnil] at this
    simp at this
  have hstep1 : ('$' :: ds).filter (fun c => decide (c ≠ ',')) =
      '$' :: ds.filter (fun c => decide (c ≠ ',')) :=
    List.filter_cons_of_pos (by decide)
  constructor
  · rw [clean_value_float_eq, hdata, hstep1]
    have hstep2 : ('$' :: ds.filter (fun c => decide (c ≠ ','))).filter
        (fun c => decide (c ≠ '$')) = ds.filter charDigit := by
      rw [List.filter_cons_of_neg (by simp)]
      rw [hF]
      apply filter_self_of
      intro c hc
      simp only [decide_eq_true_eq]
      exact charDigit_ne c (hFd c hc) '$' (by decide)
    rw [hstep2]
    obtain ⟨fc, ft, hFc⟩ : ∃ fc ft, ds.filter charDigit = fc :: ft := by
      cases hcase : ds.filter charDigit with
      | nil => exact absurd hcase hFne
      | cons fc ft => exact ⟨fc, ft, rfl⟩
    have hfc : charDigit fc = true := hFd fc (by rw [hFc]; simp)
    have hpun : parseUnsignedNum (fc :: ft) =
        some (natFromDigits (ds.filter charDigit), 0) := by
      rw [← hFc]
      exact parseUnsignedNum_digits _ hFd hFne
    rw [hFc, parseFloatList_pos_body fc ft hfc
      (fun x hx => Or.inl (hFd x (by rw [hFc]; exact hx)))
      (natFromDigits (ds.filter charDigit)) 0 hpun]
    show Except.ok (some (renderPyFloat
      (mkFinite ((natFromDigits (ds.filter charDigit) : ℕ) : ℤ) 0))) = _
    rw [renderPyFloat_mkFinite_natCast, hFc]
  · rw [clean_value_int_eq, hdata, hstep1, hF,
      parseFloatList_dollar_none (ds.filter charDigit) hFd]

/-- Claim C6 counterexample: cleaning a dollar-prefixed amount under
`"int"` does NOT succeed — the `int` branch strips only commas. -/
theorem claim_C6_counterexample :
    clean_value (some "$1,200") "int" = .ok none := by decide

/-- Claim C6 witness at `"$1,200"`. -/
theorem claim_C6_witness :
    clean_value (some "$1,200") "float" = .ok (some "1200.0") ∧
    clean_value (some "$1,200") "int" = .ok none := by
  have h := claim_C6_currency_stripping ("1,200".data) (by decide) (by decide)
  exact ⟨h.1.trans (by decide), h.2⟩

/-! ## Value-invariant machinery (claim C2) -/

theorem validate_norm_text (pd : String → Bool) (value : Option String)
    (t : String) (opts : List String) (h : normalize_type t = "text") :
    validate_answer pd value t opts =
      match clean_value value "text" with
      | .error e => .error e
      | .ok none => .ok false
      | .ok (some cleaned) => .ok (cleaned ≠ "") := by
  simp only [validate_answer]
  rw [h]
  cases clean_value value "text" with
  | error e => rfl
  | ok o => cases o with
    | none => rfl
    | some cleaned => rfl

theorem validate_norm_float (pd : String → Bool) (value : Option String)
    (t : String) (opts : List String) (h : normalize_type t = "float") :
    validate_answer pd value t opts =
      match clean_value value "float" with
      | .error e => .error e
      | .ok none => .ok false
      | .ok (some cleaned) => .ok (parseFloatList cleaned.data).isSome := by
  simp only [validate_answer]
  rw [h]
  cases clean_value value "float" with
  | error e => rfl
  | ok o => cases o with
    | none => rfl
    | some cleaned => rfl

theorem validate_norm_int (pd : String → Bool) (value : Option String)
    (t : String) (opts : List String) (h : normalize_type t = "int") :
    validate_answer pd value t opts =
      match clean_value value "int" with
      | .error e => .error e
      | .ok none => .ok false
      | .ok (some cleaned) => .ok (pyIsDigit cleaned) := by
  simp only [validate_answer]
  rw [h]
  cases clean_value value "int" with
  | error e => rfl
  | ok o => cases o with
    | none => rfl
    | some cleaned => rfl

theorem validate_norm_datetime (pd : String → Bool) (value : Option String)
    (t : String) (opts : List String) (h : normalize_type t = "datetime") :
    validate_answer pd value t opts =
      match clean_value value "datetime" with
      | .error e => .error e
      | .ok none => .ok false
      | .ok (some cleaned) => .ok (pd cleaned) := by
  simp only [validate_answer]
  rw [h]
  cases clean_value value "datetime" with
  | error e => rfl
  | ok o => cases o with
    | none => rfl
    | some cleaned => rfl

theorem validate_norm_boolean (pd : String → Bool) (value : Option String)
    (t : String) (opts : List String) (h : normalize_type t = "boolean") :
    validate_answer pd value t opts =
      match clean_value value "boolean" with
      | .error e => .error e
      | .ok none => .ok false
      | .ok (some cleaned) => .ok (cleaned = "yes" ∨ cleaned = "no") := by
  simp only [validate_answer]
  rw [h]
  cases clean_value value "boolean" with
  | error e => rfl
  | ok o => cases o with
    | none => rfl
    | some cleaned => rfl

theorem validate_norm_multichoice (pd : String → Bool) (value : Option String)
    (t : String) (opts : List String) (h : normalize_type t = "multichoice") :
    validate_answer pd value t opts =
      match clean_value value "multichoice" with
      | .error e => .error e
      | .ok none => .ok false
      | .ok (some cleaned) => .ok ((opts.map pyLower).contains (pyLower cleaned)) := by
  simp only [validate_answer]
  rw [h]
  cases clean_value value "multichoice" with
  | error e => rfl
  | ok o => cases o with
    | none => rfl
    | some cleaned => rfl

theorem validate_norm_other (pd : String → Bool) (value : Option String)
    (t : String) (opts : List String)
    (h1 : normalize_type t ≠ "text") (h2 : normalize_type t ≠ "int")
    (h3 : normalize_type t ≠ "float") (h4 : normalize_type t ≠ "datetime")
    (h5 : normalize_type t ≠ "boolean") (h6 : normalize_type t ≠ "multichoice") :
    validate_answer pd value t opts ≠ .ok true := by
  simp only [validate_answer]
  cases clean_value value (normalize_type t) with
  | error e => simp
  | ok o => cases o with
    | none => simp
    | some cleaned =>
      simp only [if_neg h1, if_neg h2, if_neg h3, if_neg h4, if_neg h5, if_neg h6]
      simp

theorem normalize_type_lower (t : String) (hlow : pyLower t = t) :
    normalize_type t =
      (if t = "phone" then "text" else if t = "date" then "datetime"
       else if t = "string" then "text" else t) := by
  simp only [normalize_type, hlow]

theorem norm_cases_text (t : String) (hlow : pyLower t = t)
    (h : normalize_type t = "text") :
    t = "text" ∨ t = "phone" ∨ t = "string" := by
  rw [normalize_type_lower t hlow] at h
  by_cases h1 : t = "phone"
  · right; left; exact h1
  · rw [if_neg h1] at h
    by_cases h2 : t = "date"
    · rw [if_pos h2] at h; exact absurd h (by decide)
    · rw [if_neg h2] at h
      by_cases h3 : t = "string"
      · right; right; exact h3
      · rw [if_neg h3] at h; left; exact h

theorem norm_cases_plain (t n : String) (hlow : pyLower t = t)
    (hn1 : n ≠ "text") (hn2 : n ≠ "datetime")
    (h : normalize_type t = n) : t = n := by
  rw [normalize_type_lower t hlow] at h
  by_cases h1 : t = "phone"
  · rw [if_pos h1] at h; exact absurd h.symm hn1
  · rw [if_neg h1] at h
    by_cases h2 : t = "date"
    · rw [if_pos h2] at h; exact absurd h.symm hn2
    · rw [if_neg h2] at h
      by_cases h3 : t = "string"
      · rw [if_pos h3] at h; exact absurd h.symm hn1
      · rw [if_neg h3] at h; exact h

theorem norm_cases_datetime (t : String) (hlow : pyLower t = t)
    (h : normalize_type t = "datetime") :
    t = "datetime" ∨ t = "date" := by
  rw [normalize_type_lower t hlow] at h
  by_cases h1 : t = "phone"
  · rw [if_pos h1] at h; exact absurd h (by decide)
  · rw [if_neg h1] at h
    by_cases h2 : t = "date"
    · right; exact h2
    · rw [if_neg h2] at h
      by_cases h3 : t = "string"
      · rw [if_pos h3] at h; exact absurd h (by decide)
      · rw [if_neg h3] at h; left; exact h

def firstLineStrip (s : String) : String := pyStrip (firstSplit s)

theorem firstLineStrip_no_space (s : String)
    (h : ∀ ch ∈ s.data, pyIsSpace ch = false) : firstLineStrip s = s := by
  cases s with
  | mk l =>
    have hnl : ∀ c ∈ l, (fun c => decide (c ≠ '\n')) c = true := by
      intro c hc
      simp only [decide_eq_true_eq]
      intro he
      subst he
      exact absurd (h '\n' hc) (by decide)
    show pyStrip (String.mk (l.takeWhile fun c => c ≠ '\n')) = String.mk l
    rw [takeWhile_all _ l hnl, pyStrip_mk, stripL_no_space l h]

theorem toLower_eq_newline (y : Char) (h : Char.toLower y = '\n') : y = '\n' := by
  by_cases hy : y.toNat ≥ 65 ∧ y.toNat ≤ 90
  · exfalso
    unfold Char.toLower at h
    rw [if_pos hy] at h
    have hv : (y.toNat + 32).isValidChar := Or.inl (by omega)
    have hval : (Char.ofNat (y.toNat + 32)).toNat = y.toNat + 32 := by
      rw [Char.ofNat, dif_pos hv]
      rfl
    have h10 := congrArg Char.toNat h
    rw [hval] at h10
    have : ('\n').toNat = 10 := rfl
    omega
  · unfold Char.toLower at h
    rw [if_neg hy] at h
    exact h

theorem written_value_ok_fallthrough_text (pd : String → Bool) (t : String)
    (opts : List String) (x c : String)
    (ht : normalize_type t = "text")
    (hb : t ≠ "boolean") (hi : t ≠ "int") (hf : t ≠ "float") :
    firstLineStrip c = "" ∨
      validate_answer pd (some (firstLineStrip c)) t opts = .ok true := by
  by_cases hw : firstLineStrip c = ""
  · left; exact hw
  · right
    rw [validate_norm_text pd _ t opts ht,
      clean_value_default_eq "text" _ (by decide) (by decide) (by decide)]
    show Except.ok (decide (pyStrip (firstLineStrip c) ≠ "")) = Except.ok true
    have hsw : pyStrip (firstLineStrip c) = firstLineStrip c := pyStrip_idem (firstSplit c)
    rw [hsw, decide_eq_true hw]

theorem written_value_ok_datetime (pd : String → Bool) (t : String)
    (opts : List String) (x c : String)
    (ht : normalize_type t = "datetime")
    (hb : t ≠ "boolean") (hi : t ≠ "int") (hf : t ≠ "float")
    (hpd : ∀ s, pd s = true → pd (firstLineStrip s) = true)
    (hclean : clean_value (some x) t = .ok (some c))
    (hvalid : validate_answer pd (some c) t opts = .ok true) :
    firstLineStrip c = "" ∨
      validate_answer pd (some (firstLineStrip c)) t opts = .ok true := by
  have hc : c = pyStrip x := by
    rw [clean_value_default_eq t x hb hi hf] at hclean
    injection hclean with h'
    injection h' with h''
    exact h''.symm
  have hsc : pyStrip c = c := by rw [hc]; exact pyStrip_idem x
  rw [validate_norm_datetime pd _ t opts ht,
    clean_value_default_eq "datetime" c (by decide) (by decide) (by decide)] at hvalid
  have hpdc : pd c = true := by
    rw [hsc] at hvalid
    injection hvalid
  right
  rw [validate_norm_datetime pd _ t opts ht,
    clean_value_default_eq "datetime" _ (by decide) (by decide) (by decide)]
  show Except.ok (pd (pyStrip (firstLineStrip c))) = Except.ok true
  have hsw : pyStrip (firstLineStrip c) = firstLineStrip c := pyStrip_idem (firstSplit c)
  rw [hsw, hpd c hpdc]

theorem written_value_ok_multichoice (pd : String → Bool)
    (opts : List String) (x c : String)
    (hnl : ∀ o ∈ opts, ∀ ch ∈ o.data, ch ≠ '\n')
    (hclean : clean_value (some x) "multichoice" = .ok (some c))
    (hvalid : validate_answer pd (some c) "multichoice" opts = .ok true) :
    firstLineStrip c = "" ∨
      validate_answer pd (some (firstLineStrip c)) "multichoice" opts = .ok true := by
  have hc : c = pyStrip x := by
    rw [clean_value_default_eq _ x (by decide) (by decide) (by decide)] at hclean
    injection hclean with h'
    injection h' with h''
    exact h''.symm
  have hsc : pyStrip c = c := by rw [hc]; exact pyStrip_idem x
  have hvalid2 := hvalid
  rw [validate_norm_multichoice pd _ _ opts (by decide),
    clean_value_default_eq _ c (by decide) (by decide) (by decide), hsc] at hvalid2
  have hcont : (opts.map pyLower).contains (pyLower c) = true := by
    injection hvalid2
  have hmem : pyLower c ∈ opts.map pyLower := by simpa using hcont
  obtain ⟨o, ho, heq⟩ := List.mem_map.mp hmem
  have hnoNl : ∀ ch ∈ c.data, ch ≠ '\n' := by
    intro ch hch he
    subst he
    have h1 : '\n' ∈ (pyLower c).data := by
      simp only [pyLower]
      exact List.mem_map.mpr ⟨'\n', hch, rfl⟩
    rw [← heq] at h1
    simp only [pyLower] at h1
    obtain ⟨y, hy, hly⟩ := List.mem_map.mp h1
    exact hnl o ho y hy (toLower_eq_newline y hly)
  have hfs : firstSplit c = c := by
    cases hcc : c with
    | mk l =>
      show String.mk (l.takeWhile fun ch => ch ≠ '\n') = String.mk l
      rw [takeWhile_all]
      intro ch hch
      simp only [decide_eq_true_eq]
      exact hnoNl ch (by rw [hcc]; exact hch)
  have hw : firstLineStrip c = c := by
    unfold firstLineStrip
    rw [hfs, hsc]
  right
  rw [hw]
  exact hvalid

theorem written_value_ok_boolean (pd : String → Bool)
    (opts : List String) (x c : String)
    (hclean : clean_value (some x) "boolean" = .ok (some c))
    (hvalid : validate_answer pd (some c) "boolean" opts = .ok true) :
    firstLineStrip c = "" ∨
      validate_answer pd (some (firstLineStrip c)) "boolean" opts = .ok true := by
  rw [clean_value_boolean_eq] at hclean
  split_ifs at hclean with ha hn
  · have hc : c = "yes" := by
      injection hclean with h'
      injection h' with h''
      exact h''.symm
    subst hc
    right
    rw [show firstLineStrip "yes" = "yes" from by decide]
    exact hvalid
  · have hc : c = "no" := by
      injection hclean with h'
      injection h' with h''
      exact h''.symm
    subst hc
    right
    rw [show firstLineStrip "no" = "no" from by decide]
    exact hvalid
  · exfalso
    have hc : c = pyStrip x := by
      injection hclean with h'
      injection h' with h''
      exact h''.symm
    have hsc : pyStrip c = c := by rw [hc]; exact pyStrip_idem x
    have hval2 := hvalid
    rw [validate_norm_boolean pd _ _ opts (by decide), clean_value_boolean_eq] at hval2
    have hvv : pyLower (pyStrip c) = pyLower (pyStrip x) := by
      rw [hc, pyStrip_idem x]
    rw [hvv, if_neg ha, if_neg hn, hsc] at hval2
    have hyn : (c = "yes" ∨ c = "no") := by
      have := hval2
      injection this with h'
      exact of_decide_eq_true h'
    rcases hyn with hy | hy
    · rw [hc] at hy
      rw [hy] at ha
      exact ha (by decide)
    · rw [hc] at hy
      rw [hy] at hn
      exact hn (by decide)

theorem written_value_ok_int (pd : String → Bool)
    (opts : List String) (x c : String)
    (hclean : clean_value (some x) "int" = .ok (some c))
    (hvalid : validate_answer pd (some c) "int" opts = .ok true) :
    firstLineStrip c = "" ∨
      validate_answer pd (some (firstLineStrip c)) "int" opts = .ok true := by
  rw [clean_value_int_eq] at hclean
  cases hPm : parseFloatList ((pyLower (pyStrip x)).data.filter fun ch => ch ≠ ',') with
  | none => rw [hPm] at hclean; simp at hclean
  | some f =>
    rw [hPm] at hclean
    cases f with
    | nan => simp at hclean
    | inf => simp at hclean
    | ninf => simp at hclean
    | finite m e =>
      have hc : c = String.mk (intRender (truncVal m e)) := by
        injection hclean with h'
        injection h' with h''
        exact h''.symm
      have hns : ∀ ch ∈ c.data, pyIsSpace ch = false := by
        intro ch hch
        rw [hc] at hch
        rcases intRender_chars (truncVal m e) ch hch with h | h
        · exact charDigit_not_space ch h
        · subst h; decide
      right
      rw [firstLineStrip_no_space c hns]
      exact hvalid

theorem written_value_ok_float (pd : String → Bool)
    (opts : List String) (x c : String)
    (hclean : clean_value (some x) "float" = .ok (some c))
    (hvalid : validate_answer pd (some c) "float" opts = .ok true) :
    firstLineStrip c = "" ∨
      validate_answer pd (some (firstLineStrip c)) "float" opts = .ok true := by
  rw [clean_value_float_eq] at hclean
  cases hPm : parseFloatList (((pyLower (pyStrip x)).data.filter fun ch => ch ≠ ',').filter
      fun ch => ch ≠ '$') with
  | none => rw [hPm] at hclean; simp at hclean
  | some f =>
    rw [hPm] at hclean
    have hc : c = renderPyFloat f := by
      injection hclean with h'
      injection h' with h''
      exact h''.symm
    have hns : ∀ ch ∈ c.data, pyIsSpace ch = false := by
      intro ch hch
      rw [hc] at hch
      rcases renderPyFloat_chars f ch hch with h | h | h | h | h | h | h
      · exact charDigit_not_space ch h
      all_goals (subst h; decide)
    right
    rw [firstLineStrip_no_space c hns]
    exact hvalid

/-- After a successful extraction the written value re-validates and comes
from the deterministic cleaning pipeline. -/
theorem written_value_ok (pd : String → Bool) (t : String) (opts : List String)
    (x c : String)
    (hlow : pyLower t = t)
    (hnl : ∀ o ∈ opts, ∀ ch ∈ o.data, ch ≠ '\n')
    (hpd : ∀ s, pd s = true → pd (firstLineStrip s) = true)
    (hclean : clean_value (some x) t = .ok (some c))
    (hvalid : validate_answer pd (some c) t opts = .ok true) :
    firstLineStrip c = "" ∨
      validate_answer pd (some (firstLineStrip c)) t opts = .ok true := by
  by_cases h1 : normalize_type t = "text"
  · rcases norm_cases_text t hlow h1 with h | h | h <;> subst h <;>
      exact written_value_ok_fallthrough_text pd _ opts x c (by decide)
        (by decide) (by decide) (by decide)
  · by_cases h2 : normalize_type t = "int"
    · have ht : t = "int" := norm_cases_plain t "int" hlow (by decide) (by decide) h2
      subst ht
      exact written_value_ok_int pd opts x c hclean hvalid
    · by_cases h3 : normalize_type t = "float"
      · have ht : t = "float" := norm_cases_plain t "float" hlow (by decide) (by decide) h3
        subst ht
        exact written_value_ok_float pd opts x c hclean hvalid
      · by_cases h4 : normalize_type t = "datetime"
        · rcases norm_cases_datetime t hlow h4 with h | h <;> subst h <;>
            exact written_value_ok_datetime pd _ opts x c (by decide)
              (by decide) (by decide) (by decide) hpd hclean hvalid
        · by_cases h5 : normalize_type t = "boolean"
          · have ht : t = "boolean" :=
              norm_cases_plain t "boolean" hlow (by decide) (by decide) h5
            subst ht
            exact written_value_ok_boolean pd opts x c hclean hvalid
          · by_cases h6 : normalize_type t = "multichoice"
            · have ht : t = "multichoice" :=
                norm_cases_plain t "multichoice" hlow (by decide) (by decide) h6
              subst ht
              exact written_value_ok_multichoice pd opts x c hnl hclean hvalid
            · exact absurd hvalid (validate_norm_other pd _ t opts h1 h2 h3 h4 h5 h6)

/-- Both success exits of `extract_clean_answer` return a value that was
produced by `clean_value` and accepted by `validate_answer`. -/
theorem extract_ok_some (apiKey : Option String) (pd : String → Bool)
    (conv : List Message) (k : String) (fi : FieldInfo) (u : String)
    (answers : Answers) (oracle : List NetResult) (c : String)
    (c' : List Message) (o' : List NetResult)
    (h : extract_clean_answer apiKey pd conv k fi u answers oracle =
      (.ok (some c), c', o')) :
    ∃ x, clean_value (some x) fi.Type' = .ok (some c) ∧
      validate_answer pd (some c) fi.Type' fi.Options = .ok true := by
  unfold extract_clean_answer at h
  dsimp only [] at h
  split at h
  · simp at h
  · rename_i cleaned hcl
    split at h
    · simp at h
    · -- validate ok true: first return site
      rename_i hval
      injection h with h1 h2
      injection h1 with h1'
      rw [h1'] at hcl hval
      exact ⟨u, hcl, hval⟩
    · -- validate ok false: oracle-assisted stage
      split at h
      · simp at h
      · rename_i payload c0 o0 heq
        split at h
        · simp at h
        · rename_i text hpr
          split at h
          · simp at h
          · rename_i c2 hpop
            split at h
            · simp at h
            · rename_i cleaned2 hcl2
              split at h
              · simp at h
              · rename_i hval2
                injection h with h1 h2
                injection h1 with h1'
                rw [h1'] at hcl2 hval2
                exact ⟨pyStrip text, hcl2, hval2⟩
              · simp at h

/-- The spec's data-model invariant: a field `Value` is empty or
re-validates against its own `Type`/`Options`. -/
def ValueOkB (pd : String → Bool) (kv : String × FieldInfo) : Bool :=
  decide (kv.2.Value = "") ||
    decide (validate_answer pd (some kv.2.Value) kv.2.Type' kv.2.Options = .ok true)

def invariantB (pd : String → Bool) (answers : Answers) : Bool :=
  answers.all (ValueOkB pd)

def optionsNlFree (answers : Answers) : Bool :=
  answers.all fun kv => kv.2.Options.all fun o => o.data.all fun c => c ≠ '\n'

def typesLower (answers : Answers) : Bool :=
  answers.all fun kv => pyLower kv.2.Type' == kv.2.Type'

theorem lookupField_mem (k : String) (answers : Answers) (fi : FieldInfo)
    (h : lookupField k answers = some fi) : (k, fi) ∈ answers := by
  induction answers with
  | nil => simp [lookupField] at h
  | cons kv rest ih =>
    by_cases hk : kv.1 = k
    · simp only [lookupField, if_pos hk] at h
      injection h with h'
      have hkv : kv = (k, fi) := by
        cases kv with
        | mk a b =>
          simp only at hk h'
          rw [hk, h']
      rw [hkv]
      exact List.mem_cons_self _ _
    · simp only [lookupField, if_neg hk] at h
      right
      exact ih h

theorem invariant_setValue (pd : String → Bool) (answers : Answers) (k w : String)
    (hinv : invariantB pd answers = true)
    (hok : ∀ fi, lookupField k answers = some fi →
      (w = "" ∨ validate_answer pd (some w) fi.Type' fi.Options = .ok true)) :
    invariantB pd (setValue k w answers) = true := by
  induction answers with
  | nil => rfl
  | cons kv rest ih =>
    simp only [invariantB, List.all_cons, Bool.and_eq_true] at hinv
    by_cases hk : kv.1 = k
    · simp only [setValue, if_pos hk, invariantB, List.all_cons, Bool.and_eq_true]
      constructor
      · have hfi : lookupField k (kv :: rest) = some kv.2 := by
          simp [lookupField, if_pos hk]
        rcases hok kv.2 hfi with hw | hw
        · simp [ValueOkB, hw]
        · simp [ValueOkB, hw]
      · exact hinv.2
    · simp only [setValue, if_neg hk, invariantB, List.all_cons, Bool.and_eq_true]
      refine ⟨hinv.1, ?_⟩
      apply ih hinv.2
      intro fi hfi
      apply hok
      simp [lookupField, if_neg hk, hfi]

theorem truthy_some (o : Option String) (v : String)
    (h : (match o with
          | some s => if s = "" then none else some s
          | none => none) = some v) :
    o = some v := by
  cases o with
  | none => simp at h
  | some s =>
    show some s = some v
    by_cases hs : s = ""
    · rw [show (match some s with
          | some s => if s = "" then none else some s
          | none => none) = (if s = "" then none else some s) from rfl,
        if_pos hs] at h
      simp at h
    · rw [show (match some s with
          | some s => if s = "" then none else some s
          | none => none) = (if s = "" then none else some s) from rfl,
        if_neg hs] at h
      exact h

set_option maxHeartbeats 1000000 in
/-- Claim C2 (amended): `process_user_message` preserves the Value
invariant on every path, provided every field's declared `Type` is written
in lowercase, no multichoice option contains a newline, and the (abstract)
datetime parser accepts the stripped first line of any string it accepts. -/
theorem claim_C2_value_invariant (apiKey : Option String) (pd : String → Bool)
    (u path : String) (st : PState)
    (hinv : invariantB pd st.answers = true)
    (hnl : optionsNlFree st.answers = true)
    (hlow : typesLower st.answers = true)
    (hpd : ∀ s, pd s = true → pd (firstLineStrip s) = true) :
    invariantB pd (process_user_message apiKey pd u path st).2.answers = true := by
  unfold process_user_message
  dsimp only []
  split
  · exact hinv
  · split
    · exact hinv
    · split
      · -- a field was matched
        split
        · exact hinv
        · rename_i k hkmatch x1 fi hlook
          split
          · exact hinv
          · rename_i x2 cleanedOpt c2 o2 hext
            split
            · rename_i x3 cval htruthy
              have hfi_mem := lookupField_mem k st.answers fi hlook
              have hlow_fi : pyLower fi.Type' = fi.Type' := by
                have := List.all_eq_true.mp hlow (k, fi) hfi_mem
                exact eq_of_beq this
              have hnl_fi : ∀ o ∈ fi.Options, ∀ ch ∈ o.data, ch ≠ '\n' := by
                intro o ho ch hch
                have h1 := List.all_eq_true.mp hnl (k, fi) hfi_mem
                have h2 := List.all_eq_true.mp h1 o ho
                have h3 := List.all_eq_true.mp h2 ch hch
                simpa using h3
              have hcv := truthy_some cleanedOpt cval htruthy
              rw [hcv] at hext
              obtain ⟨x, hcl, hval⟩ :=
                extract_ok_some apiKey pd _ k fi u st.answers _ cval c2 o2 hext
              have hwok := written_value_ok pd fi.Type' fi.Options x cval
                hlow_fi hnl_fi hpd hcl hval
              have hinv2 : invariantB pd
                  (setValue k (pyStrip (firstSplit cval)) st.answers) = true := by
                apply invariant_setValue pd st.answers k _ hinv
                intro fi' hfi'
                rw [hlook] at hfi'
                injection hfi' with hfi''
                rw [← hfi'']
                exact hwok
              split
              · exact hinv2
              · split
                · exact hinv2
                · split
                  · exact hinv2
                  · exact hinv2
            · split
              · exact hinv
              · split
                · exact hinv
                · exact hinv
      · -- no match
        split
        · split
          · exact hinv
          · split
            · exact hinv
            · split
              · exact hinv
              · exact hinv
        · split
          · exact hinv
          · split
            · exact hinv
            · split
              · exact hinv
              · exact hinv

/-- Claim C2 counterexample: a multichoice option containing a newline breaks
the invariant: input `"a\nb"` validates as a whole, but the written value
`cleaned.split("\n")[0].strip() = "a"` no longer re-validates. -/
theorem claim_C2_counterexample :
    invariantB (fun _ => false)
        [("choice", ⟨"", "multichoice", ["a\nb"], true⟩)] = true ∧
    invariantB (fun _ => false)
        (process_user_message (some "k") (fun _ => false) "a\nb" "out.json"
          ⟨[⟨"system", "s"⟩], [("choice", ⟨"", "multichoice", ["a\nb"], true⟩)],
           [.ok (some "choice")], []⟩).2.answers = false := by
  decide

/-- Claim C2 witness: a run that writes `"red"` into a well-formed multichoice
field keeps the invariant. -/
theorem claim_C2_witness :
    invariantB (fun _ => false)
      (process_user_message (some "k") (fun _ => false) "red" "out.json"
        ⟨[⟨"system", "s"⟩], [("color", ⟨"", "multichoice", ["red", "blue"], true⟩)],
         [.ok (some "color")], []⟩).2.answers = true :=
  claim_C2_value_invariant (some "k") (fun _ => false) "red" "out.json"
    ⟨[⟨"system", "s"⟩], [("color", ⟨"", "multichoice", ["red", "blue"], true⟩)],
     [.ok (some "color")], []⟩ (by decide) (by decide) (by decide)
    (fun _ h => nomatch h)

/-- Claim C8 counterexample: when a field is literally named `"None"`, the
reply `"None"` is NOT treated as a sentinel — the matcher returns it as a
genuine match, contradicting the unconditional sentinel reading. -/
theorem claim_C8_counterexample :
    ask_llama_to_match_field (some "k") [⟨"system", "s"⟩] "what is it" ["None"] []
        [.ok (some "None")] =
      (.ok (some "None"), [⟨"system", "s"⟩], []) := by
  decide
